import Mathlib

/-!
Verification of the workspace-tree subsystem (repository + service layers).

The Rust sources embedded here are
`crates/lazynote_core/src/repo/tree_repo.rs` (SQLite repository) and
`crates/lazynote_core/src/service/tree_service.rs` (validating service).
The SQLite table `workspace_nodes` is modelled as a list of rows, the
`atoms` table as a second list of rows; UUIDs are modelled as naturals,
`i64` columns as `Int`.  SQL statements become list traversals over those
rows.  All definitions are executable; recursion that SQLite performs via
a recursive CTE and that Rust performs via an unbounded `while let` loop
is made total here by a fuel argument bounded by the table size, with
lemmas showing the fuel suffices on well-formed data.
-/

namespace LazyNote

/-- Workspace node / atom identifiers (`uuid::Uuid` in the source). -/
abbrev Id := Nat

/-- Atom kinds stored in the `atoms.type` column (`model/atom.rs`,
`AtomType`); the column only ever holds `note`, `task` or `event`. -/
inductive AtomType
  | note
  | task
  | event
deriving DecidableEq

/-- One row of the `atoms` table, restricted to the columns the tree
subsystem reads or writes (`uuid`, `type`, `is_deleted`, `updated_at`). -/
structure AtomRow where
  uuid : Id
  type : AtomType
  is_deleted : Bool
  updated_at : Int
deriving DecidableEq

/-- Workspace tree node kind (`tree_repo.rs`, `WorkspaceNodeKind`). -/
inductive WorkspaceNodeKind
  | folder
  | note_ref
deriving DecidableEq

/-- Workspace tree read model (`tree_repo.rs`, `WorkspaceNode`), one row of
the `workspace_nodes` table. -/
structure NodeRow where
  node_uuid : Id
  kind : WorkspaceNodeKind
  parent_uuid : Option Id
  atom_uuid : Option Id
  display_name : String
  sort_order : Int
  is_deleted : Bool
  created_at : Int
  updated_at : Int
deriving DecidableEq

/-- The SQLite database state visible to the tree subsystem: the
`workspace_nodes` table and the `atoms` table. -/
structure DB where
  nodes : List NodeRow
  atoms : List AtomRow
deriving DecidableEq

/-- Errors from workspace tree repository operations (`TreeRepoError`).
The schema-check variants (`UninitializedConnection`,
`MissingRequiredTable`, `MissingRequiredColumn`) concern connection
bootstrap only and are not modelled; `Db` carries an opaque message in
place of the wrapped `DbError`. -/
inductive TreeRepoError
  | Db (message : String)
  | NodeNotFound (id : Id)
  | NodeNotFolder (id : Id)
  | InvalidData (message : String)
deriving DecidableEq

/-- Errors from workspace tree service operations (`TreeServiceError`). -/
inductive TreeServiceError
  | InvalidDisplayName
  | NodeNotFound (id : Id)
  | ParentNotFound (id : Id)
  | ParentMustBeFolder (id : Id)
  | NodeMustBeFolder (id : Id)
  | AtomNotFound (id : Id)
  | AtomNotNote (id : Id)
  | CycleDetected (node_uuid : Id) (parent_uuid : Id)
  | Repo (err : TreeRepoError)
deriving DecidableEq

/-- The `From< TreeRepoError>` conversion into `TreeServiceError`:
`NodeNotFound` and `NodeNotFolder` are given service-level meaning, every
other repository error is wrapped in `Repo`. -/
def liftRepoError : TreeRepoError → TreeServiceError
  | .NodeNotFound id => .NodeNotFound id
  | .NodeNotFolder id => .NodeMustBeFolder id
  | e => .Repo e

/-- Primary-key lookup in `workspace_nodes` (`WHERE node_uuid = ?1`). -/
def findNode (db : DB) (id : Id) : Option NodeRow :=
  db.nodes.find? (fun n => decide (n.node_uuid = id))

/-- Primary-key lookup of an active atom
(`WHERE uuid = ?1 AND is_deleted = 0`). -/
def findActiveAtom (db : DB) (a : Id) : Option AtomRow :=
  db.atoms.find? (fun r => decide (r.uuid = a) && !r.is_deleted)

/-- Primary-key lookup in `atoms` regardless of tombstone state. -/
def findAtom (db : DB) (a : Id) : Option AtomRow :=
  db.atoms.find? (fun r => decide (r.uuid = a))

/-- The `LEFT JOIN atoms a ON a.uuid = n.atom_uuid` visibility conjunct:
the target atom exists, has `type = note` and `is_deleted = 0`.  A `NULL`
`atom_uuid` joins no row, so the conjunct is false. -/
def atomActiveNote (db : DB) (a : Option Id) : Bool :=
  match a with
  | none => false
  | some u =>
      db.atoms.any (fun r =>
        decide (r.uuid = u) &&
        decide (r.type = AtomType.note) &&
        !r.is_deleted)

/-- The shared visibility predicate of the repository's filtered reads:
not tombstoned, and for a `note_ref` the target atom must be an active
note (the `WHERE` clause of `get_node` / `list_children` with
`include_deleted = false`). -/
def nodeVisible (db : DB) (n : NodeRow) : Bool :=
  !n.is_deleted &&
    (match n.kind with
     | .folder => true
     | .note_ref => atomActiveNote db n.atom_uuid)

/-- The `ORDER BY sort_order ASC, node_uuid ASC` comparison. -/
def rowLE (a b : NodeRow) : Bool :=
  decide (a.sort_order < b.sort_order) ||
    (decide (a.sort_order = b.sort_order) && decide (a.node_uuid ≤ b.node_uuid))

/-- Propositional form of the `ORDER BY` comparison. -/
def rowle (a b : NodeRow) : Prop := rowLE a b = true

instance : DecidableRel rowle := fun a b => by
  unfold rowle; infer_instance

/-- Sorting by `(sort_order ASC, node_uuid ASC)`, the repository's
deterministic child order. -/
def sortNodes (l : List NodeRow) : List NodeRow :=
  l.insertionSort rowle

/-- SQL `UPDATE workspace_nodes SET ... WHERE pred`: rewrites every row
matched by `pred` with `f`, leaving other rows untouched. -/
def updateNodes (db : DB) (pred : NodeRow → Bool) (f : NodeRow → NodeRow) : DB :=
  { db with nodes := db.nodes.map (fun n => if pred n then f n else n) }

/-- SQL `UPDATE atoms SET ... WHERE pred`. -/
def updateAtoms (db : DB) (pred : AtomRow → Bool) (f : AtomRow → AtomRow) : DB :=
  { db with atoms := db.atoms.map (fun r => if pred r then f r else r) }

namespace TreeRepository

/-- `get_node(id, include_deleted)`: the unfiltered variant is a plain
primary-key read; the filtered variant additionally applies the
visibility predicate. -/
def get_node (db : DB) (id : Id) (include_deleted : Bool) : Option NodeRow :=
  match findNode db id with
  | none => none
  | some n =>
      if include_deleted then some n
      else if nodeVisible db n then some n else none

/-- `list_children(parent_uuid, include_deleted)`: the four SQL variants
(parent given / root level, filtered / unfiltered) collapse to one filter
over the rows followed by the deterministic sort. -/
def list_children (db : DB) (parent_uuid : Option Id) (include_deleted : Bool) :
    List NodeRow :=
  sortNodes (db.nodes.filter (fun n =>
    decide (n.parent_uuid = parent_uuid) &&
    (include_deleted || nodeVisible db n)))

/-- Helper `list_active_child_ids`: ids of non-deleted children of one
parent, in `(sort_order, node_uuid)` order (no visibility join). -/
def list_active_child_ids (db : DB) (parent_uuid : Option Id) : List Id :=
  (sortNodes (db.nodes.filter (fun n =>
    decide (n.parent_uuid = parent_uuid) && !n.is_deleted))).map (·.node_uuid)

/-- Helper `list_visible_child_ids`: ids of visible children of one
parent, in `(sort_order, node_uuid)` order. -/
def list_visible_child_ids (db : DB) (parent_uuid : Option Id) : List Id :=
  (sortNodes (db.nodes.filter (fun n =>
    decide (n.parent_uuid = parent_uuid) && nodeVisible db n))).map (·.node_uuid)

/-- Helper `next_sort_order`:
`COALESCE(MAX(sort_order), -1) + 1` over the non-deleted siblings of one
parent. -/
def next_sort_order (db : DB) (parent_uuid : Option Id) : Int :=
  ((db.nodes.filter (fun n =>
    decide (n.parent_uuid = parent_uuid) && !n.is_deleted)).map
      (·.sort_order)).foldl max (-1) + 1

/-- Helper `load_required_node`: re-reads the freshly inserted row
(`WHERE node_uuid = ?1 AND is_deleted = 0`), `NodeNotFound` if absent. -/
def load_required_node (db : DB) (id : Id) : Except TreeRepoError NodeRow :=
  match db.nodes.find? (fun n => decide (n.node_uuid = id) && !n.is_deleted) with
  | some n => .ok n
  | none => .error (.NodeNotFound id)

/-- `create_folder(parent_uuid, display_name)`.  `Uuid::new_v4()` is
modelled by the explicit fresh id `node_uuid`; inserting a duplicate
primary key is the SQLite constraint failure, surfaced as a `Db` error. -/
def create_folder (db : DB) (parent_uuid : Option Id) (display_name : String)
    (node_uuid : Id) (now : Int) : Except TreeRepoError (DB × NodeRow) :=
  if db.nodes.any (fun n => decide (n.node_uuid = node_uuid)) then
    .error (.Db "UNIQUE constraint failed: workspace_nodes.node_uuid")
  else
    let sort_order := next_sort_order db parent_uuid
    let row : NodeRow :=
      { node_uuid := node_uuid
        kind := .folder
        parent_uuid := parent_uuid
        atom_uuid := none
        display_name := display_name
        sort_order := sort_order
        is_deleted := false
        created_at := now
        updated_at := now }
    let db' : DB := { db with nodes := db.nodes ++ [row] }
    match load_required_node db' node_uuid with
    | .ok n => .ok (db', n)
    | .error e => .error e

/-- `create_note_ref(parent_uuid, atom_uuid, display_name)`: same ordering
rule as `create_folder`, with `kind = note_ref` and the atom reference
set.  No validation of the atom kind happens here. -/
def create_note_ref (db : DB) (parent_uuid : Option Id) (atom_uuid : Id)
    (display_name : String) (node_uuid : Id) (now : Int) :
    Except TreeRepoError (DB × NodeRow) :=
  if db.nodes.any (fun n => decide (n.node_uuid = node_uuid)) then
    .error (.Db "UNIQUE constraint failed: workspace_nodes.node_uuid")
  else
    let sort_order := next_sort_order db parent_uuid
    let row : NodeRow :=
      { node_uuid := node_uuid
        kind := .note_ref
        parent_uuid := parent_uuid
        atom_uuid := some atom_uuid
        display_name := display_name
        sort_order := sort_order
        is_deleted := false
        created_at := now
        updated_at := now }
    let db' : DB := { db with nodes := db.nodes ++ [row] }
    match load_required_node db' node_uuid with
    | .ok n => .ok (db', n)
    | .error e => .error e

/-- The Rust `target_order.unwrap_or(len).clamp(0, len) as usize`
computation selecting the insertion index in the destination sibling
list. -/
def resolveTargetIndex (target_order : Option Int) (len : Nat) : Nat :=
  (min (max (target_order.getD (len : Int)) 0) (len : Int)).toNat

/-- The per-sibling `UPDATE ... SET sort_order = ?2 ... WHERE node_uuid =
?1 AND is_deleted = 0` loop of `move_node`, applied to the enumerated
destination order list. -/
def applySortOrders (now : Int) : DB → List (Nat × Id) → DB
  | db, [] => db
  | db, (i, x) :: rest =>
      applySortOrders now
        (updateNodes db
          (fun n => decide (n.node_uuid = x) && !n.is_deleted)
          (fun n => { n with sort_order := (i : Int), updated_at := now }))
        rest

/-- Insertion into the sibling id list at a clamped index
(`Vec::insert`). -/
def insertAt (xs : List Id) (i : Nat) (x : Id) : List Id :=
  xs.take i ++ x :: xs.drop i

/-- `move_node(id, new_parent_uuid, target_order)`: visibility pre-check,
then inside one immediate transaction: fetch the visible destination
siblings minus the moving node, clamp the target index, insert the moving
id, update the moved row's `parent_uuid`, and rewrite `sort_order =
0..n-1` over the resulting list.  This is the committed (success-path)
state; the statement-level transaction semantics with failure injection
is `move_node_run` below. -/
def move_node (db : DB) (node_uuid : Id) (new_parent_uuid : Option Id)
    (target_order : Option Int) (now : Int) : Except TreeRepoError DB :=
  match get_node db node_uuid false with
  | none => .error (.NodeNotFound node_uuid)
  | some _ =>
      let sibling_ids :=
        (list_visible_child_ids db new_parent_uuid).filter
          (fun s => decide (¬ s = node_uuid))
      let target_index := resolveTargetIndex target_order sibling_ids.length
      let order := insertAt sibling_ids target_index node_uuid
      let db₁ :=
        updateNodes db
          (fun n => decide (n.node_uuid = node_uuid) && !n.is_deleted)
          (fun n => { n with parent_uuid := new_parent_uuid, updated_at := now })
      .ok (applySortOrders now db₁ order.enum)

/-- Helper `ensure_active_folder_exists`: the target must be a non-deleted
row of kind `folder` (`NodeNotFound` / `NodeNotFolder` otherwise). -/
def ensure_active_folder_exists (db : DB) (folder_uuid : Id) :
    Except TreeRepoError Unit :=
  match db.nodes.find? (fun n => decide (n.node_uuid = folder_uuid) && !n.is_deleted) with
  | none => .error (.NodeNotFound folder_uuid)
  | some n =>
      match n.kind with
      | .folder => .ok ()
      | .note_ref => .error (.NodeNotFolder folder_uuid)

/-- The reparent loop of `delete_folder_dissolve`: each direct child is
moved to root level with `sort_order = base_order + index`. -/
def applyDissolveMoves (now base_order : Int) : DB → List (Nat × Id) → DB
  | db, [] => db
  | db, (i, x) :: rest =>
      applyDissolveMoves now base_order
        (updateNodes db
          (fun n => decide (n.node_uuid = x) && !n.is_deleted)
          (fun n =>
            { n with parent_uuid := none
                     sort_order := base_order + (i : Int)
                     updated_at := now }))
        rest

/-- `delete_folder_dissolve(folder_uuid)`: requires an active folder,
reparents its direct non-deleted children (no visibility join) to root
with freshly appended sort orders, then tombstones the folder itself. -/
def delete_folder_dissolve (db : DB) (folder_uuid : Id) (now : Int) :
    Except TreeRepoError DB :=
  match ensure_active_folder_exists db folder_uuid with
  | .error e => .error e
  | .ok _ =>
      let children := list_active_child_ids db (some folder_uuid)
      let base_order := next_sort_order db none
      let db₁ := applyDissolveMoves now base_order db children.enum
      let db₂ :=
        updateNodes db₁
          (fun n =>
            decide (n.node_uuid = folder_uuid) &&
            decide (n.kind = WorkspaceNodeKind.folder) && !n.is_deleted)
          (fun n => { n with is_deleted := true, updated_at := now })
      .ok db₂

/-- Breadth-first closure over active `parent_uuid` edges, modelling the
`WITH RECURSIVE subtree` common-table-expression: the least set
containing the active seed and closed under non-deleted children.  The
fuel (one per table row) makes the traversal total; on well-formed data
the frontier gains only fresh ids, so the fuel never runs out. -/
def subtreeClosure (db : DB) : Nat → List Id → List Id → List Id
  | 0, _, acc => acc
  | fuel + 1, frontier, acc =>
      let next :=
        (db.nodes.filter (fun n =>
          !n.is_deleted &&
          (match n.parent_uuid with
           | some q => frontier.contains q
           | none => false) &&
          !(acc.contains n.node_uuid))).map (·.node_uuid)
      match next with
      | [] => acc
      | _ => subtreeClosure db fuel next (acc ++ next)

/-- The node ids of the recursive `subtree` CTE rooted at one folder:
empty when the seed row is absent or deleted. -/
def subtreeIds (db : DB) (folder_uuid : Id) : List Id :=
  match db.nodes.find? (fun n => decide (n.node_uuid = folder_uuid) && !n.is_deleted) with
  | none => []
  | some _ => subtreeClosure db db.nodes.length [folder_uuid] [folder_uuid]

/-- Helper `list_referenced_note_atoms_in_subtree`: the distinct
`atom_uuid` values of non-deleted `note_ref` rows inside the subtree
(no atom-side filtering, so dangling references are collected too). -/
def list_referenced_note_atoms_in_subtree (db : DB) (folder_uuid : Id) : List Id :=
  ((db.nodes.filter (fun n =>
    (subtreeIds db folder_uuid).contains n.node_uuid &&
    decide (n.kind = WorkspaceNodeKind.note_ref) &&
    !n.is_deleted &&
    n.atom_uuid.isSome)).filterMap (·.atom_uuid)).dedup

/-- Helper `soft_delete_workspace_subtree`: tombstones every non-deleted
row of the subtree in one `UPDATE`; the CTE is evaluated against the
pre-update table. -/
def soft_delete_workspace_subtree (db : DB) (folder_uuid : Id) (now : Int) : DB :=
  updateNodes db
    (fun n => (subtreeIds db folder_uuid).contains n.node_uuid && !n.is_deleted)
    (fun n => { n with is_deleted := true, updated_at := now })

/-- The `SELECT EXISTS` reference check of `delete_folder_delete_all`:
does any non-deleted `note_ref` row still reference the atom. -/
def has_other_active_refs (db : DB) (a : Id) : Bool :=
  db.nodes.any (fun n =>
    decide (n.kind = WorkspaceNodeKind.note_ref) &&
    decide (n.atom_uuid = some a) &&
    !n.is_deleted)

/-- The reference-counting loop of `delete_folder_delete_all`: for each
collected atom, if no non-deleted `note_ref` row still references it, the
atom row is soft-deleted (`WHERE uuid = ?1 AND type = 'note' AND
is_deleted = 0`). -/
def gcAtoms (now : Int) : DB → List Id → DB
  | db, [] => db
  | db, a :: rest =>
      if has_other_active_refs db a then gcAtoms now db rest
      else
        gcAtoms now
          (updateAtoms db
            (fun r => decide (r.uuid = a) && decide (r.type = AtomType.note) && !r.is_deleted)
            (fun r => { r with is_deleted := true, updated_at := now }))
          rest

/-- `delete_folder_delete_all(folder_uuid)`: requires an active folder,
collects the referenced atoms of its subtree, tombstones the whole
subtree, then garbage-collects atoms with no remaining active
reference. -/
def delete_folder_delete_all (db : DB) (folder_uuid : Id) (now : Int) :
    Except TreeRepoError DB :=
  match ensure_active_folder_exists db folder_uuid with
  | .error e => .error e
  | .ok _ =>
      let referenced := list_referenced_note_atoms_in_subtree db folder_uuid
      let db₁ := soft_delete_workspace_subtree db folder_uuid now
      .ok (gcAtoms now db₁ referenced)

/-- `atom_kind(atom_uuid)`: the `type` of the active atom row, `none` when
the atom is absent or soft-deleted.  With the typed `AtomType` column the
`InvalidData` branch for unknown type strings cannot arise. -/
def atom_kind (db : DB) (atom_uuid : Id) : Except TreeRepoError (Option AtomType) :=
  match findActiveAtom db atom_uuid with
  | none => .ok none
  | some r => .ok (some r.type)

end TreeRepository

/-- Decidable equality of `Except` results, for evaluating concrete
outcomes of the operations below. -/
instance exceptDecEq {ε α : Type} [DecidableEq ε] [DecidableEq α] :
    DecidableEq (Except ε α)
  | .ok a, .ok b =>
      if h : a = b then .isTrue (by rw [h]) else .isFalse (by simp [h])
  | .ok _, .error _ => .isFalse (by simp)
  | .error _, .ok _ => .isFalse (by simp)
  | .error e, .error f =>
      if h : e = f then .isTrue (by rw [h]) else .isFalse (by simp [h])

/-- Statement-level events of one repository call, used to state where the
immediate-mode transaction begins relative to the reads and writes. -/
inductive SqlEvent
  | readGetNode
  | beginImmediate
  | readChildren
  | writeParentUpdate
  | writeSortUpdate
  | commitTx
deriving DecidableEq

/-- Outcome of one statement-by-statement run of the repository's
`move_node`: the surfaced result, the committed database (the pre-call
database whenever the transaction aborted), and the event trace. -/
structure MoveRun where
  result : Except TreeRepoError Unit
  db : DB
  trace : List SqlEvent
deriving DecidableEq

namespace TreeRepository

/-- The in-transaction sibling `sort_order` update loop with failure
injection: `failAt = some k` makes the `k`-th in-transaction statement
fail with a storage error (the parent update is statement `0`). -/
def sortUpdatesRun (now : Int) (failAt : Option Nat) :
    DB → Nat → List (Nat × Id) → Except TreeRepoError DB × List SqlEvent
  | work, _, [] => (.ok work, [])
  | work, stmt, (i, x) :: rest =>
      if failAt = some stmt then
        (.error (.Db "injected statement failure"), [.writeSortUpdate])
      else
        let work' :=
          updateNodes work
            (fun n => decide (n.node_uuid = x) && !n.is_deleted)
            (fun n => { n with sort_order := (i : Int), updated_at := now })
        let step := sortUpdatesRun now failAt work' (stmt + 1) rest
        (step.1, .writeSortUpdate :: step.2)

/-- Statement-by-statement model of `move_node`, mirroring the source
order: the `get_node` existence pre-check runs on the connection before
`Transaction::new_unchecked(.., Immediate)`; the sibling-list read and
every `UPDATE` run inside the transaction; an aborted transaction is
rolled back, leaving the stored state exactly the pre-call database. -/
def move_node_run (db : DB) (node_uuid : Id) (new_parent_uuid : Option Id)
    (target_order : Option Int) (now : Int) (failAt : Option Nat) : MoveRun :=
  match get_node db node_uuid false with
  | none => ⟨.error (.NodeNotFound node_uuid), db, [.readGetNode]⟩
  | some _ =>
      let sibling_ids :=
        (list_visible_child_ids db new_parent_uuid).filter
          (fun s => decide (¬ s = node_uuid))
      let target_index := resolveTargetIndex target_order sibling_ids.length
      let order := insertAt sibling_ids target_index node_uuid
      let opened : List SqlEvent :=
        [.readGetNode, .beginImmediate, .readChildren]
      if failAt = some 0 then
        ⟨.error (.Db "injected statement failure"), db, opened ++ [.writeParentUpdate]⟩
      else
        let work :=
          updateNodes db
            (fun n => decide (n.node_uuid = node_uuid) && !n.is_deleted)
            (fun n => { n with parent_uuid := new_parent_uuid, updated_at := now })
        match sortUpdatesRun now failAt work 1 order.enum with
        | (.ok work', evs) =>
            ⟨.ok (), work', opened ++ .writeParentUpdate :: (evs ++ [.commitTx])⟩
        | (.error e, evs) =>
            ⟨.error e, db, opened ++ .writeParentUpdate :: evs⟩

end TreeRepository

namespace TreeService

/-- Helper `normalize_display_name`: trims the input and rejects
blank-after-trim names. -/
def normalize_display_name (value : String) : Except TreeServiceError String :=
  let trimmed := value.trim
  if trimmed.isEmpty then .error .InvalidDisplayName else .ok trimmed

/-- Helper `ensure_parent_is_folder`: the parent must pass the visibility
read and be of folder kind. -/
def ensure_parent_is_folder (db : DB) (parent_uuid : Id) :
    Except TreeServiceError Unit :=
  match TreeRepository.get_node db parent_uuid false with
  | none => .error (.ParentNotFound parent_uuid)
  | some parent =>
      match parent.kind with
      | .folder => .ok ()
      | .note_ref => .error (.ParentMustBeFolder parent_uuid)

/-- Helper `ensure_atom_is_note`: the target atom must be active and of
note kind (`AtomNotFound` / `AtomNotNote` otherwise). -/
def ensure_atom_is_note (db : DB) (atom_uuid : Id) : Except TreeServiceError Unit :=
  match TreeRepository.atom_kind db atom_uuid with
  | .error e => .error (liftRepoError e)
  | .ok none => .error (.AtomNotFound atom_uuid)
  | .ok (some .note) => .ok ()
  | .ok (some _) => .error (.AtomNotNote atom_uuid)

/-- `TreeService::create_folder`: normalizes the name, validates the
optional parent, then delegates to the repository. -/
def create_folder (db : DB) (parent_uuid : Option Id) (display_name : String)
    (node_uuid : Id) (now : Int) : Except TreeServiceError (DB × NodeRow) :=
  match normalize_display_name display_name with
  | .error e => .error e
  | .ok normalized =>
      match
        (match parent_uuid with
         | some p => ensure_parent_is_folder db p
         | none => .ok () : Except TreeServiceError Unit) with
      | .error e => .error e
      | .ok _ =>
          match TreeRepository.create_folder db parent_uuid normalized node_uuid now with
          | .ok r => .ok r
          | .error e => .error (liftRepoError e)

/-- `TreeService::create_note_ref`: validates the optional parent, then
the atom kind, then normalizes the name (defaulting to `"Untitled note"`
when none is supplied) and delegates to the repository. -/
def create_note_ref (db : DB) (parent_uuid : Option Id) (atom_uuid : Id)
    (display_name : Option String) (node_uuid : Id) (now : Int) :
    Except TreeServiceError (DB × NodeRow) :=
  match
    (match parent_uuid with
     | some p => ensure_parent_is_folder db p
     | none => .ok () : Except TreeServiceError Unit) with
  | .error e => .error e
  | .ok _ =>
      match ensure_atom_is_note db atom_uuid with
      | .error e => .error e
      | .ok _ =>
          match
            (match display_name with
             | some value => normalize_display_name value
             | none => .ok "Untitled note" : Except TreeServiceError String) with
          | .error e => .error e
          | .ok normalized =>
              match TreeRepository.create_note_ref db parent_uuid atom_uuid normalized
                  node_uuid now with
              | .ok r => .ok r
              | .error e => .error (liftRepoError e)

/-- One step of `would_create_cycle`'s ancestor walk (`while let
Some(current) = cursor`): reaching the moved node or revisiting a node
reports a cycle; a failing ancestor lookup surfaces `ParentNotFound`; a
node without parent ends the walk without a cycle.  The Rust loop needs
no fuel because the visited set grows each iteration; here the fuel plays
that role and `none` marks exhaustion, shown unreachable for fuel larger
than the table size on well-formed data. -/
def cycleWalk (db : DB) (node_uuid : Id) :
    Nat → List Id → Option Id → Option (Except TreeServiceError Bool)
  | _, _, none => some (.ok false)
  | 0, _, some _ => none
  | fuel + 1, visited, some current =>
      if current = node_uuid then some (.ok true)
      else if current ∈ visited then some (.ok true)
      else
        match TreeRepository.get_node db current false with
        | none => some (.error (.ParentNotFound current))
        | some node => cycleWalk db node_uuid fuel (current :: visited) node.parent_uuid

/-- Helper `would_create_cycle`: the ancestor walk starting at the
candidate parent. -/
def would_create_cycle (db : DB) (node_uuid candidate_parent_uuid : Id) :
    Option (Except TreeServiceError Bool) :=
  cycleWalk db node_uuid (db.nodes.length + 1) [] (some candidate_parent_uuid)

/-- `TreeService::move_node`: visibility pre-check on the moved node, the
self-parenting rejection, the parent-folder check, the ancestor walk, and
finally the repository move with negative targets clamped to zero.  The
fuel-exhaustion branch of the walk is mapped to an `InvalidData`-wrapped
repository error; it is unreachable on well-formed data. -/
def move_node (db : DB) (node_uuid : Id) (new_parent_uuid : Option Id)
    (target_order : Option Int) (now : Int) : Except TreeServiceError DB :=
  match TreeRepository.get_node db node_uuid false with
  | none => .error (.NodeNotFound node_uuid)
  | some _ =>
      match
        (match new_parent_uuid with
         | none => (.ok () : Except TreeServiceError Unit)
         | some parent_uuid =>
             if parent_uuid = node_uuid then
               .error (.CycleDetected node_uuid parent_uuid)
             else
               match ensure_parent_is_folder db parent_uuid with
               | .error e => .error e
               | .ok _ =>
                   match would_create_cycle db node_uuid parent_uuid with
                   | none => .error (.Repo (.InvalidData "cycle walk fuel exhausted"))
                   | some (.error e) => .error e
                   | some (.ok true) => .error (.CycleDetected node_uuid parent_uuid)
                   | some (.ok false) => .ok ()) with
      | .error e => .error e
      | .ok _ =>
          match TreeRepository.move_node db node_uuid new_parent_uuid
              (target_order.map (fun v => max v 0)) now with
          | .ok db' => .ok db'
          | .error e => .error (liftRepoError e)

/-- Folder delete mode (`FolderDeleteMode`). -/
inductive FolderDeleteMode
  | Dissolve
  | DeleteAll
deriving DecidableEq

/-- `TreeService::delete_folder`: loads the node through the visibility
read, requires folder kind, then dispatches on the explicit mode. -/
def delete_folder (db : DB) (folder_uuid : Id) (mode : FolderDeleteMode)
    (now : Int) : Except TreeServiceError DB :=
  match TreeRepository.get_node db folder_uuid false with
  | none => .error (.NodeNotFound folder_uuid)
  | some folder =>
      match folder.kind with
      | .note_ref => .error (.NodeMustBeFolder folder_uuid)
      | .folder =>
          match
            (match mode with
             | .Dissolve => TreeRepository.delete_folder_dissolve db folder_uuid now
             | .DeleteAll => TreeRepository.delete_folder_delete_all db folder_uuid now :
              Except TreeRepoError DB) with
          | .ok db' => .ok db'
          | .error e => .error (liftRepoError e)

end TreeService

/-- Well-formed database: primary keys of both tables are unique. -/
def WF (db : DB) : Prop :=
  (db.nodes.map (·.node_uuid)).Nodup ∧ (db.atoms.map (·.uuid)).Nodup

instance (db : DB) : Decidable (WF db) := by
  unfold WF; infer_instance

/-- The raw parent link of a node id, `None` when the row is absent. -/
def parentOf (db : DB) (x : Id) : Option Id :=
  (findNode db x).bind (·.parent_uuid)

/-- The k-th strict ancestor along raw `parent_uuid` links, `none` when
the chain ends (missing row or root) before k steps. -/
def stepN (db : DB) : Nat → Id → Option Id
  | 0, x => some x
  | k + 1, x =>
      match parentOf db x with
      | none => none
      | some y => stepN db k y

/-- No active node occurs in its own upward parent chain. -/
def Acyclic (db : DB) : Prop :=
  ∀ n ∈ db.nodes, n.is_deleted = false →
    ∀ k, 1 ≤ k → stepN db k n.node_uuid ≠ some n.node_uuid

/-- One service-level `move_node` request. -/
structure MoveCall where
  node_uuid : Id
  new_parent_uuid : Option Id
  target_order : Option Int
  now : Int
deriving DecidableEq

/-- Sequential execution of service-level `move_node` calls, stopping at
the first failure. -/
def applyMoves (db : DB) : List MoveCall → Except TreeServiceError DB
  | [] => .ok db
  | c :: cs =>
      match TreeService.move_node db c.node_uuid c.new_parent_uuid c.target_order c.now with
      | .error e => .error e
      | .ok db₁ => applyMoves db₁ cs

/-! Concrete databases used as counterexamples and witnesses appear just
below; everything after them is lemmas and the claim theorems. -/

/-- Shorthand for an active folder row in concrete scenarios. -/
def folderRow (u : Id) (p : Option Id) (so : Int) : NodeRow :=
  { node_uuid := u, kind := .folder, parent_uuid := p, atom_uuid := none,
    display_name := "folder", sort_order := so, is_deleted := false,
    created_at := 0, updated_at := 0 }

/-- Shorthand for an active note_ref row in concrete scenarios. -/
def noteRefRow (u : Id) (p : Option Id) (a : Id) (so : Int) : NodeRow :=
  { node_uuid := u, kind := .note_ref, parent_uuid := p, atom_uuid := some a,
    display_name := "note", sort_order := so, is_deleted := false,
    created_at := 0, updated_at := 0 }

/-- Shorthand for an atom row in concrete scenarios. -/
def atomRow (u : Id) (ty : AtomType) (del : Bool) : AtomRow :=
  { uuid := u, type := ty, is_deleted := del, updated_at := 0 }

/-- Acyclic database with a dangling parent link: folder 1 is active and
points at the nonexistent parent 99; folder 2 is an active root. -/
def dbDanglingParent : DB :=
  { nodes := [folderRow 1 (some 99) 0, folderRow 2 none 1], atoms := [] }

/-- One active root folder, used for the transaction-trace scenario. -/
def dbOneFolder : DB :=
  { nodes := [folderRow 1 none 0], atoms := [] }

/-- Four active root folders: moving folder 3 into folder 1 leaves the
root level with a sort_order gap. -/
def dbFourRoots : DB :=
  { nodes := [folderRow 1 none 0, folderRow 2 none 1,
              folderRow 3 none 2, folderRow 4 none 3], atoms := [] }

/-- Folder 1 containing one dangling note_ref (atom 50 does not exist):
the ref is active but invisible. -/
def dbDanglingChild : DB :=
  { nodes := [folderRow 1 none 0, noteRefRow 2 (some 1) 50 0], atoms := [] }

/-- Folder 1 containing a dangling note_ref at sort 0 and a visible
folder at sort 5. -/
def dbDanglingSibling : DB :=
  { nodes := [folderRow 1 none 0, noteRefRow 2 (some 1) 50 0,
              folderRow 3 (some 1) 5], atoms := [] }

/-- Two folders each holding a note_ref to the same note atom 50. -/
def dbSharedAtom : DB :=
  { nodes := [folderRow 1 none 0, folderRow 2 none 1,
              noteRefRow 3 (some 1) 50 0, noteRefRow 4 (some 2) 50 0],
    atoms := [atomRow 50 .note false] }

/-- Folder 1 holding the only note_ref to atom 50, which has been retyped
to a task. -/
def dbRetypedAtom : DB :=
  { nodes := [folderRow 1 none 0, noteRefRow 2 (some 1) 50 0],
    atoms := [atomRow 50 .task false] }

/-- The dissolve scenario: root-level FolderA (1) holding NoteRef X (2,
atom 60) and FolderB (3), which holds NoteRef Y (4, atom 61). -/
def dbDissolve : DB :=
  { nodes := [folderRow 1 none 0, noteRefRow 2 (some 1) 60 0,
              folderRow 3 (some 1) 1, noteRefRow 4 (some 3) 61 0],
    atoms := [atomRow 60 .note false, atomRow 61 .note false] }

/-- A single existing, non-tombstoned note_ref whose target atom has been
soft-deleted (a dangling node). -/
def dbDanglingRef : DB :=
  { nodes := [noteRefRow 1 none 50 0],
    atoms := [atomRow 50 .note true] }

/-- The reorder scenario: folders A (2), B (3), C (4) under folder 1 with
sort_order 0, 1, 2. -/
def dbReorder : DB :=
  { nodes := [folderRow 1 none 0, folderRow 2 (some 1) 0,
              folderRow 3 (some 1) 1, folderRow 4 (some 1) 2], atoms := [] }

/-- The result of moving folder 2 to index 2 under folder 1 in
`dbReorder` at time 1: the visible children become A=3, B=4, C=2 with
sort_order 0, 1, 2. -/
def dbReorderAfter : DB :=
  { nodes := [folderRow 1 none 0,
              { folderRow 2 (some 1) 2 with updated_at := 1 },
              { folderRow 3 (some 1) 0 with updated_at := 1 },
              { folderRow 4 (some 1) 1 with updated_at := 1 }], atoms := [] }

/-- The database state after dissolving FolderA in `dbDissolve`. -/
def dbDissolveResult : DB :=
  { nodes := [{ folderRow 1 none 0 with is_deleted := true },
              noteRefRow 2 none 60 1, folderRow 3 none 2,
              noteRefRow 4 (some 3) 61 0],
    atoms := [atomRow 60 .note false, atomRow 61 .note false] }

/-- The database state after `delete_folder_delete_all` on FolderT (1) of
`dbSharedAtom`: the folder and its note_ref are tombstoned, the shared
atom survives because FolderO's reference is still active. -/
def dbSharedAtomAfterT : DB :=
  { nodes := [{ folderRow 1 none 0 with is_deleted := true }, folderRow 2 none 1,
              { noteRefRow 3 (some 1) 50 0 with is_deleted := true },
              noteRefRow 4 (some 2) 50 0],
    atoms := [atomRow 50 .note false] }

/-- The database state after `delete_folder_delete_all` on folder 1 of
`dbRetypedAtom`: both rows tombstoned, the retyped atom left untouched. -/
def dbRetypedAfter : DB :=
  { nodes := [{ folderRow 1 none 0 with is_deleted := true },
              { noteRefRow 2 (some 1) 50 0 with is_deleted := true }],
    atoms := [atomRow 50 .task false] }

/-- Atom store with one task atom (52) and one active note atom (51). -/
def dbAtomKinds : DB :=
  { nodes := [], atoms := [atomRow 51 .note false, atomRow 52 .task false] }

/-- The reference-counting condition of the delete-all garbage
collection, phrased over the pre-call database: the atom row is an
active note, it is collected from the deleted subtree, and no active
note_ref outside that subtree still references it. -/
def gcCondition (db : DB) (folder : Id) (a : AtomRow) : Prop :=
  a.is_deleted = false ∧ a.type = .note ∧
  a.uuid ∈ TreeRepository.list_referenced_note_atoms_in_subtree db folder ∧
  ¬ ∃ n, n ∈ db.nodes ∧ n.kind = .note_ref ∧ n.is_deleted = false ∧
      n.atom_uuid = some a.uuid ∧
      ¬ (TreeRepository.subtreeIds db folder).contains n.node_uuid

instance (db : DB) (folder : Id) (a : AtomRow) : Decidable (gcCondition db folder a) := by
  unfold gcCondition
  infer_instance

/-- The expected dense key sequence `0..n-1` as integers. -/
def intRange (n : Nat) : List Int :=
  (List.range n).map Int.ofNat

/-! ### Basic order and sorting lemmas -/

instance : IsTotal NodeRow rowle := by
  constructor
  intro a b
  unfold rowle rowLE
  simp only [Bool.or_eq_true, Bool.and_eq_true, decide_eq_true_eq]
  rcases lt_trichotomy a.sort_order b.sort_order with h | h | h
  · exact Or.inl (Or.inl h)
  · rcases Nat.le_total a.node_uuid b.node_uuid with hu | hu
    · exact Or.inl (Or.inr ⟨h, hu⟩)
    · exact Or.inr (Or.inr ⟨h.symm, hu⟩)
  · exact Or.inr (Or.inl h)

instance : IsTrans NodeRow rowle := by
  constructor
  intro a b c hab hbc
  unfold rowle rowLE at hab hbc ⊢
  simp only [Bool.or_eq_true, Bool.and_eq_true, decide_eq_true_eq] at hab hbc ⊢
  rcases hab with hab | ⟨hab, hu⟩
  · rcases hbc with hbc | ⟨hbc, _⟩
    · exact Or.inl (lt_trans hab hbc)
    · exact Or.inl (hbc ▸ hab)
  · rcases hbc with hbc | ⟨hbc, hv⟩
    · exact Or.inl (hab ▸ hbc)
    · exact Or.inr ⟨hab.trans hbc, Nat.le_trans hu hv⟩

theorem sortNodes_perm (l : List NodeRow) : List.Perm (sortNodes l) l :=
  List.perm_insertionSort rowle l

theorem sortNodes_sorted (l : List NodeRow) : List.Sorted rowle (sortNodes l) :=
  List.sorted_insertionSort rowle l

theorem rowle_sort_order_le {a b : NodeRow} (h : rowle a b) :
    a.sort_order ≤ b.sort_order := by
  simp only [rowle, rowLE, Bool.or_eq_true, Bool.and_eq_true, decide_eq_true_eq] at h
  omega

/-! ### Primary-key lookup lemmas -/

theorem findNode_mem {db : DB} {x : Id} {n : NodeRow} (h : findNode db x = some n) :
    n ∈ db.nodes ∧ n.node_uuid = x := by
  refine ⟨List.mem_of_find?_eq_some h, ?_⟩
  have hp := List.find?_some h
  simpa using hp

theorem find?_key_self {l : List NodeRow} {n : NodeRow}
    (wf : (l.map (·.node_uuid)).Nodup) (hn : n ∈ l) :
    l.find? (fun m => decide (m.node_uuid = n.node_uuid)) = some n := by
  induction l with
  | nil => cases hn
  | cons a l ih =>
      rcases List.mem_cons.1 hn with h | h
      · subst h
        simp [List.find?]
      · have hne : ¬ a.node_uuid = n.node_uuid := by
          intro he
          have : n.node_uuid ∈ l.map (·.node_uuid) := List.mem_map_of_mem _ h
          rw [List.map_cons, List.nodup_cons] at wf
          exact wf.1 (he ▸ this)
        have wf' : (l.map (·.node_uuid)).Nodup := by
          rw [List.map_cons, List.nodup_cons] at wf
          exact wf.2
        simp [List.find?, hne, ih wf' h]

theorem findNode_self {db : DB} {n : NodeRow}
    (wf : (db.nodes.map (·.node_uuid)).Nodup) (hn : n ∈ db.nodes) :
    findNode db n.node_uuid = some n :=
  find?_key_self wf hn

/-! ### Update lemmas -/

theorem updateNodes_atoms (db : DB) (pred : NodeRow → Bool) (f : NodeRow → NodeRow) :
    (updateNodes db pred f).atoms = db.atoms := rfl

theorem updateAtoms_nodes (db : DB) (pred : AtomRow → Bool) (f : AtomRow → AtomRow) :
    (updateAtoms db pred f).nodes = db.nodes := rfl

theorem updateNodes_map_uuid {pred : NodeRow → Bool} {f : NodeRow → NodeRow}
    (h : ∀ n, pred n = true → (f n).node_uuid = n.node_uuid) (db : DB) :
    (updateNodes db pred f).nodes.map (·.node_uuid) = db.nodes.map (·.node_uuid) := by
  unfold updateNodes
  simp only [List.map_map]
  apply List.map_congr_left
  intro n _
  by_cases hp : pred n = true
  · simp [hp, h n hp]
  · simp [hp]

theorem find?_key_map_ite {l : List NodeRow} {pred : NodeRow → Bool}
    {f : NodeRow → NodeRow}
    (h : ∀ n, pred n = true → (f n).node_uuid = n.node_uuid) (x : Id) :
    (l.map (fun n => if pred n then f n else n)).find?
        (fun m => decide (m.node_uuid = x)) =
      (l.find? (fun m => decide (m.node_uuid = x))).map
        (fun n => if pred n then f n else n) := by
  induction l with
  | nil => rfl
  | cons a l ih =>
      by_cases hp : pred a = true
      · by_cases hx : a.node_uuid = x
        · simp [List.find?, hp, h a hp, hx]
        · simp [List.find?, hp, h a hp, hx, ih]
      · by_cases hx : a.node_uuid = x
        · simp [List.find?, hp, hx]
        · simp [List.find?, hp, hx, ih]

theorem findNode_updateNodes {pred : NodeRow → Bool} {f : NodeRow → NodeRow}
    (h : ∀ n, pred n = true → (f n).node_uuid = n.node_uuid) (db : DB) (x : Id) :
    findNode (updateNodes db pred f) x =
      (findNode db x).map (fun n => if pred n then f n else n) :=
  find?_key_map_ite h x

/-- Field preservation contract of the sibling/tombstone update maps: the
key, kind, atom reference and tombstone flag of every row survive. -/
def SkeletonPreserving (F : NodeRow → NodeRow) : Prop :=
  ∀ n, (F n).node_uuid = n.node_uuid ∧ (F n).kind = n.kind ∧
    (F n).atom_uuid = n.atom_uuid ∧ (F n).is_deleted = n.is_deleted

theorem skeletonPreserving_id : SkeletonPreserving id := by
  intro n; exact ⟨rfl, rfl, rfl, rfl⟩

theorem skeletonPreserving_comp {F G : NodeRow → NodeRow}
    (hF : SkeletonPreserving F) (hG : SkeletonPreserving G) :
    SkeletonPreserving (F ∘ G) := by
  intro n
  obtain ⟨h1, h2, h3, h4⟩ := hF (G n)
  obtain ⟨g1, g2, g3, g4⟩ := hG n
  exact ⟨h1.trans g1, h2.trans g2, h3.trans g3, h4.trans g4⟩

theorem applySortOrders_atoms (now : Int) :
    ∀ (l : List (Nat × Id)) (db : DB), (TreeRepository.applySortOrders now db l).atoms = db.atoms := by
  intro l
  induction l with
  | nil => intro db; rfl
  | cons a rest ih =>
      intro db
      obtain ⟨i, x⟩ := a
      simpa [TreeRepository.applySortOrders] using ih _

theorem applyDissolveMoves_atoms (now base : Int) :
    ∀ (l : List (Nat × Id)) (db : DB),
      (TreeRepository.applyDissolveMoves now base db l).atoms = db.atoms := by
  intro l
  induction l with
  | nil => intro db; rfl
  | cons a rest ih =>
      intro db
      obtain ⟨i, x⟩ := a
      simpa [TreeRepository.applyDissolveMoves] using ih _

theorem applySortOrders_shape (now : Int) :
    ∀ (l : List (Nat × Id)) (db : DB),
      ∃ F : NodeRow → NodeRow,
        (TreeRepository.applySortOrders now db l).nodes = db.nodes.map F ∧
        SkeletonPreserving F ∧ ∀ n, (F n).parent_uuid = n.parent_uuid := by
  intro l
  induction l with
  | nil =>
      intro db
      exact ⟨id, by simp [TreeRepository.applySortOrders], skeletonPreserving_id, fun n => rfl⟩
  | cons a rest ih =>
      intro db
      obtain ⟨i, x⟩ := a
      set g : NodeRow → NodeRow := fun n =>
        if decide (n.node_uuid = x) && !n.is_deleted then
          { n with sort_order := (i : Int), updated_at := now }
        else n with hg
      obtain ⟨F, hF, hFs, hFp⟩ :=
        ih (updateNodes db (fun n => decide (n.node_uuid = x) && !n.is_deleted)
          (fun n => { n with sort_order := (i : Int), updated_at := now }))
      refine ⟨F ∘ g, ?_, ?_, ?_⟩
      · rw [TreeRepository.applySortOrders, hF]
        simp [updateNodes, List.map_map, hg]
      · refine skeletonPreserving_comp hFs ?_
        intro n
        rw [hg]
        by_cases hc : (decide (n.node_uuid = x) && !n.is_deleted) = true
        · simp [hc]
        · simp [hc]
      · intro n
        rw [Function.comp_apply, hFp, hg]
        by_cases hc : (decide (n.node_uuid = x) && !n.is_deleted) = true
        · simp [hc]
        · simp [hc]

theorem applyDissolveMoves_shape (now base : Int) :
    ∀ (l : List (Nat × Id)) (db : DB),
      ∃ F : NodeRow → NodeRow,
        (TreeRepository.applyDissolveMoves now base db l).nodes = db.nodes.map F ∧
        SkeletonPreserving F := by
  intro l
  induction l with
  | nil =>
      intro db
      exact ⟨id, by simp [TreeRepository.applyDissolveMoves], skeletonPreserving_id⟩
  | cons a rest ih =>
      intro db
      obtain ⟨i, x⟩ := a
      set g : NodeRow → NodeRow := fun n =>
        if decide (n.node_uuid = x) && !n.is_deleted then
          { n with parent_uuid := none, sort_order := base + (i : Int), updated_at := now }
        else n with hg
      obtain ⟨F, hF, hFs⟩ :=
        ih (updateNodes db (fun n => decide (n.node_uuid = x) && !n.is_deleted)
          (fun n =>
            { n with parent_uuid := none, sort_order := base + (i : Int), updated_at := now }))
      refine ⟨F ∘ g, ?_, ?_⟩
      · rw [TreeRepository.applyDissolveMoves, hF]
        simp [updateNodes, List.map_map, hg]
      · refine skeletonPreserving_comp hFs ?_
        intro n
        rw [hg]
        by_cases hc : (decide (n.node_uuid = x) && !n.is_deleted) = true
        · simp [hc]
        · simp [hc]

theorem applySortOrders_untouched (now : Int) :
    ∀ (l : List (Nat × Id)) (db : DB) (x : Id), x ∉ l.map Prod.snd →
      findNode (TreeRepository.applySortOrders now db l) x = findNode db x := by
  intro l
  induction l with
  | nil => intro db x _; rfl
  | cons a rest ih =>
      intro db x hx
      obtain ⟨i, y⟩ := a
      simp only [List.map_cons, List.mem_cons, not_or] at hx
      rw [TreeRepository.applySortOrders, ih _ _ hx.2,
        findNode_updateNodes (by intro n hn; rfl)]
      cases hf : findNode db x with
      | none => rfl
      | some n =>
          have hn : n.node_uuid = x := (findNode_mem hf).2
          have : ¬ n.node_uuid = y := by rw [hn]; exact hx.1
          simp [this]

theorem applySortOrders_hit (now : Int) :
    ∀ (l : List (Nat × Id)) (db : DB) (i : Nat) (x : Id) (n : NodeRow),
      (l.map Prod.snd).Nodup → (i, x) ∈ l →
      findNode db x = some n → n.is_deleted = false →
      findNode (TreeRepository.applySortOrders now db l) x =
        some { n with sort_order := (i : Int), updated_at := now } := by
  intro l
  induction l with
  | nil => intro db i x n _ hm; cases hm
  | cons a rest ih =>
      intro db i x n hnd hm hf hdel
      obtain ⟨j, y⟩ := a
      simp only [List.map_cons, List.nodup_cons] at hnd
      rcases List.mem_cons.1 hm with he | he
      · rw [Prod.mk.injEq] at he
        obtain ⟨hi, hx⟩ := he
        subst hi; subst hx
        rw [TreeRepository.applySortOrders]
        rw [applySortOrders_untouched now rest _ x hnd.1]
        rw [findNode_updateNodes (by intro m hm'; rfl), hf]
        have hx' : n.node_uuid = x := (findNode_mem hf).2
        simp [hx', hdel]
      · have hyx : ¬ x = y := by
          intro he'
          exact hnd.1 (he' ▸ List.mem_map_of_mem Prod.snd he)
        rw [TreeRepository.applySortOrders]
        refine ih _ i x n hnd.2 he ?_ hdel
        rw [findNode_updateNodes (by intro m hm'; rfl), hf]
        have hx' : n.node_uuid = x := (findNode_mem hf).2
        simp [hx', hyx]

theorem applyDissolveMoves_untouched (now base : Int) :
    ∀ (l : List (Nat × Id)) (db : DB) (x : Id), x ∉ l.map Prod.snd →
      findNode (TreeRepository.applyDissolveMoves now base db l) x = findNode db x := by
  intro l
  induction l with
  | nil => intro db x _; rfl
  | cons a rest ih =>
      intro db x hx
      obtain ⟨i, y⟩ := a
      simp only [List.map_cons, List.mem_cons, not_or] at hx
      rw [TreeRepository.applyDissolveMoves, ih _ _ hx.2,
        findNode_updateNodes (by intro n hn; rfl)]
      cases hf : findNode db x with
      | none => rfl
      | some n =>
          have hn : n.node_uuid = x := (findNode_mem hf).2
          have : ¬ n.node_uuid = y := by rw [hn]; exact hx.1
          simp [this]

theorem find?_key_map {l : List NodeRow} {F : NodeRow → NodeRow}
    (hF : ∀ n, (F n).node_uuid = n.node_uuid) (x : Id) :
    (l.map F).find? (fun n => decide (n.node_uuid = x)) =
      (l.find? (fun n => decide (n.node_uuid = x))).map F := by
  induction l with
  | nil => rfl
  | cons a l ih =>
      by_cases hx : a.node_uuid = x
      · rw [List.map_cons,
          List.find?_cons_of_pos _ (by simpa [hF] using hx),
          List.find?_cons_of_pos _ (by simpa using hx)]
        rfl
      · rw [List.map_cons,
          List.find?_cons_of_neg _ (by simpa [hF] using hx),
          List.find?_cons_of_neg _ (by simpa using hx)]
        exact ih

theorem findNode_of_nodes_map {db db' : DB} {F : NodeRow → NodeRow}
    (hnodes : db'.nodes = db.nodes.map F)
    (hF : ∀ n, (F n).node_uuid = n.node_uuid) (x : Id) :
    findNode db' x = (findNode db x).map F := by
  unfold findNode
  rw [hnodes]
  exact find?_key_map hF x

/-! ### Parent-chain and ancestor-walk lemmas -/

theorem parentOf_eq_of_findNode {db : DB} {x : Id} {n : NodeRow}
    (h : findNode db x = some n) : parentOf db x = n.parent_uuid := by
  unfold parentOf
  rw [h]
  rfl

theorem parentOf_eq_none {db : DB} {x : Id}
    (h : findNode db x = none) : parentOf db x = none := by
  unfold parentOf
  rw [h]
  rfl

theorem stepN_succ (db : DB) (k : Nat) (x : Id) :
    stepN db (k + 1) x = (parentOf db x).bind (stepN db k) := by
  cases h : parentOf db x <;> simp [stepN, h]

theorem stepN_add (db : DB) (a b : Nat) (x : Id) :
    stepN db (a + b) x = (stepN db a x).bind (stepN db b) := by
  induction a generalizing x with
  | zero => simp [stepN]
  | succ a ih =>
      rw [show a + 1 + b = (a + b) + 1 from by omega, stepN_succ, stepN_succ]
      cases h : parentOf db x with
      | none => rfl
      | some y => simpa using ih y

theorem stepN_none_of_parentOf_none {db : DB} {x : Id} {k : Nat}
    (h : parentOf db x = none) (hk : 1 ≤ k) : stepN db k x = none := by
  cases k with
  | zero => omega
  | succ k => rw [stepN_succ, h]; rfl

theorem stepN_congr {db db' : DB} {m : Id}
    (hpar : ∀ x, x ≠ m → parentOf db' x = parentOf db x) :
    ∀ (j : Nat) (x : Id),
      (∀ l y, l < j → stepN db' l x = some y → y ≠ m) →
      stepN db' j x = stepN db j x := by
  intro j
  induction j with
  | zero => intro x _; rfl
  | succ j ih =>
      intro x hnot
      have hx : x ≠ m := hnot 0 x (by omega) rfl
      rw [stepN_succ, stepN_succ, hpar x hx]
      cases hp : parentOf db x with
      | none => rfl
      | some y =>
          simp only [Option.some_bind]
          apply ih
          intro l z hl hz
          refine hnot (l + 1) z (by omega) ?_
          rw [stepN_succ, hpar x hx, hp, Option.some_bind]
          exact hz

theorem cycle_shift {db : DB} {k l : Nat} {n m : Id}
    (hk : stepN db k n = some n) (hl : stepN db l n = some m) :
    stepN db k m = some m := by
  have h1 : stepN db (l + k) n = stepN db k m := by
    rw [stepN_add, hl, Option.some_bind]
  have h2 : stepN db (k + l) n = some m := by
    rw [stepN_add, hk, Option.some_bind, hl]
  rw [← h1, Nat.add_comm l k, h2]

theorem get_node_false_elim {db : DB} {x : Id} {n : NodeRow}
    (h : TreeRepository.get_node db x false = some n) :
    findNode db x = some n ∧ nodeVisible db n = true := by
  unfold TreeRepository.get_node at h
  cases hf : findNode db x with
  | none => rw [hf] at h; cases h
  | some n' =>
      rw [hf] at h
      simp only [Bool.false_eq_true, if_false] at h
      by_cases hv : nodeVisible db n' = true
      · rw [if_pos hv] at h
        obtain rfl : n' = n := by injection h
        exact ⟨rfl, hv⟩
      · rw [if_neg hv] at h
        cases h

theorem get_node_false_intro {db : DB} {x : Id} {n : NodeRow}
    (hf : findNode db x = some n) (hv : nodeVisible db n = true) :
    TreeRepository.get_node db x false = some n := by
  unfold TreeRepository.get_node
  rw [hf]
  simp [hv]

theorem get_node_false_none_elim {db : DB} {x : Id}
    (h : TreeRepository.get_node db x false = none) :
    ∀ n, findNode db x = some n → nodeVisible db n = false := by
  intro n hf
  unfold TreeRepository.get_node at h
  rw [hf] at h
  by_cases hv : nodeVisible db n = true
  · simp [hv] at h
  · simpa using hv

theorem filter_imp_length_le {α : Type} (p q : α → Bool)
    (h : ∀ a, q a = true → p a = true) :
    ∀ l : List α, (l.filter q).length ≤ (l.filter p).length := by
  intro l
  induction l with
  | nil => simp
  | cons a l ih =>
      rw [List.filter_cons, List.filter_cons]
      by_cases hq : q a = true
      · rw [if_pos hq, if_pos (h a hq)]
        simpa using ih
      · rw [if_neg hq]
        by_cases hp : p a = true
        · rw [if_pos hp]
          exact Nat.le_trans ih (Nat.le_succ _)
        · rw [if_neg hp]
          exact ih

theorem unseenCount_lt {v : List Id} {c : Id} (hcv : c ∉ v) :
    ∀ {U : List Id}, c ∈ U →
      (U.filter (fun u => decide (u ∉ c :: v))).length <
        (U.filter (fun u => decide (u ∉ v))).length := by
  intro U hcU
  induction U with
  | nil => cases hcU
  | cons a U ih =>
      rw [List.filter_cons, List.filter_cons]
      by_cases hac : a = c
      · subst hac
        rw [if_neg (by simp), if_pos (by simpa using hcv)]
        refine Nat.lt_succ_of_le
          (filter_imp_length_le _ _ ?_ U)
        intro u hu
        simp only [decide_eq_true_eq, List.mem_cons, not_or] at hu ⊢
        exact hu.2
      · have hmem : c ∈ U := by
          rcases List.mem_cons.1 hcU with h | h
          · exact absurd h.symm hac
          · exact h
        by_cases hav : a ∈ v
        · rw [if_neg (by simp [hav]), if_neg (by simpa using hav)]
          exact ih hmem
        · rw [if_pos (by simp [List.mem_cons, hac, hav]),
            if_pos (by simpa using hav)]
          exact Nat.succ_lt_succ (ih hmem)

theorem get_node_mem_uuid {db : DB} {x : Id} {n : NodeRow}
    (h : TreeRepository.get_node db x false = some n) :
    x ∈ db.nodes.map (·.node_uuid) := by
  obtain ⟨hf, _⟩ := get_node_false_elim h
  obtain ⟨hm, hu⟩ := findNode_mem hf
  exact hu ▸ List.mem_map_of_mem _ hm

theorem cycleWalk_isSome {db : DB} {m : Id} :
    ∀ (fuel : Nat) (visited : List Id) (c : Id),
      ((db.nodes.map (·.node_uuid)).filter
          (fun u => decide (u ∉ visited))).length < fuel →
      (TreeService.cycleWalk db m fuel visited (some c)).isSome := by
  intro fuel
  induction fuel with
  | zero => intro visited c h; omega
  | succ fuel ih =>
      intro visited c h
      by_cases h1 : c = m
      · simp [TreeService.cycleWalk, h1]
      · by_cases h2 : c ∈ visited
        · simp [TreeService.cycleWalk, h1, h2]
        · cases hg : TreeRepository.get_node db c false with
          | none => simp [TreeService.cycleWalk, h1, h2, hg]
          | some node =>
              have hstep : TreeService.cycleWalk db m (fuel + 1) visited (some c) =
                  TreeService.cycleWalk db m fuel (c :: visited) node.parent_uuid := by
                simp [TreeService.cycleWalk, h1, h2, hg]
              rw [hstep]
              cases hpu : node.parent_uuid with
              | none => cases fuel <;> simp [TreeService.cycleWalk]
              | some q =>
                  apply ih
                  have hlt := unseenCount_lt h2 (get_node_mem_uuid hg)
                  omega

theorem cycleWalk_false_no_reach {db : DB} {m : Id} :
    ∀ (fuel : Nat) (visited : List Id) (cur : Option Id),
      TreeService.cycleWalk db m fuel visited cur = some (.ok false) →
      ∀ (j : Nat) (y : Id), cur.bind (stepN db j) = some y → y ≠ m := by
  intro fuel
  induction fuel with
  | zero =>
      intro visited cur hw j y hy
      cases cur with
      | none => cases hy
      | some c => cases hw
  | succ fuel ih =>
      intro visited cur hw j y hy
      cases cur with
      | none => cases hy
      | some c =>
          by_cases h1 : c = m
          · simp [TreeService.cycleWalk, h1] at hw
          · by_cases h2 : c ∈ visited
            · simp [TreeService.cycleWalk, h1, h2] at hw
            · cases hg : TreeRepository.get_node db c false with
              | none => simp [TreeService.cycleWalk, h1, h2, hg] at hw
              | some node =>
                  have hrec : TreeService.cycleWalk db m fuel (c :: visited)
                      node.parent_uuid = some (.ok false) := by
                    rw [← hw]
                    simp [TreeService.cycleWalk, h1, h2, hg]
                  cases j with
                  | zero =>
                      simp only [Option.some_bind, stepN] at hy
                      cases hy
                      exact h1
                  | succ j =>
                      rw [Option.some_bind, stepN_succ,
                        parentOf_eq_of_findNode (get_node_false_elim hg).1] at hy
                      exact ih (c :: visited) node.parent_uuid hrec j y hy

theorem cycleWalk_error_shape {db : DB} {m : Id} :
    ∀ (fuel : Nat) (visited : List Id) (cur : Option Id) (e : TreeServiceError),
      TreeService.cycleWalk db m fuel visited cur = some (.error e) →
      ∃ q, e = .ParentNotFound q := by
  intro fuel
  induction fuel with
  | zero =>
      intro visited cur e hw
      cases cur with
      | none => cases hw
      | some c => cases hw
  | succ fuel ih =>
      intro visited cur e hw
      cases cur with
      | none => cases hw
      | some c =>
          by_cases h1 : c = m
          · simp [TreeService.cycleWalk, h1] at hw
          · by_cases h2 : c ∈ visited
            · simp [TreeService.cycleWalk, h1, h2] at hw
            · cases hg : TreeRepository.get_node db c false with
              | none =>
                  simp [TreeService.cycleWalk, h1, h2, hg] at hw
                  exact ⟨c, hw.symm⟩
              | some node =>
                  refine ih (c :: visited) node.parent_uuid e ?_
                  rw [← hw]
                  simp [TreeService.cycleWalk, h1, h2, hg]

theorem applyDissolveMoves_hit (now base : Int) :
    ∀ (l : List (Nat × Id)) (db : DB) (i : Nat) (x : Id) (n : NodeRow),
      (l.map Prod.snd).Nodup → (i, x) ∈ l →
      findNode db x = some n → n.is_deleted = false →
      findNode (TreeRepository.applyDissolveMoves now base db l) x =
        some { n with parent_uuid := none, sort_order := base + (i : Int),
                      updated_at := now } := by
  intro l
  induction l with
  | nil => intro db i x n _ hm; cases hm
  | cons a rest ih =>
      intro db i x n hnd hm hf hdel
      obtain ⟨j, y⟩ := a
      simp only [List.map_cons, List.nodup_cons] at hnd
      rcases List.mem_cons.1 hm with he | he
      · rw [Prod.mk.injEq] at he
        obtain ⟨hi, hx⟩ := he
        subst hi; subst hx
        rw [TreeRepository.applyDissolveMoves]
        rw [applyDissolveMoves_untouched now base rest _ x hnd.1]
        rw [findNode_updateNodes (by intro m hm'; rfl), hf]
        have hx' : n.node_uuid = x := (findNode_mem hf).2
        simp [hx', hdel]
      · have hyx : ¬ x = y := by
          intro he'
          exact hnd.1 (he' ▸ List.mem_map_of_mem Prod.snd he)
        rw [TreeRepository.applyDissolveMoves]
        refine ih _ i x n hnd.2 he ?_ hdel
        rw [findNode_updateNodes (by intro m hm'; rfl), hf]
        have hx' : n.node_uuid = x := (findNode_mem hf).2
        simp [hx', hyx]

/-! ### Repository move: success structure and row shape -/

theorem move_node_ok_elim {db db' : DB} {m : Id} {p : Option Id} {t : Option Int}
    {now : Int} (h : TreeRepository.move_node db m p t now = .ok db') :
    ∃ nm, TreeRepository.get_node db m false = some nm ∧
      db' =
        TreeRepository.applySortOrders now
          (updateNodes db (fun n => decide (n.node_uuid = m) && !n.is_deleted)
            (fun n => { n with parent_uuid := p, updated_at := now }))
          ((TreeRepository.insertAt
              ((TreeRepository.list_visible_child_ids db p).filter
                (fun s => decide (¬ s = m)))
              (TreeRepository.resolveTargetIndex t
                ((TreeRepository.list_visible_child_ids db p).filter
                  (fun s => decide (¬ s = m))).length)
              m).enum) := by
  unfold TreeRepository.move_node at h
  cases hg : TreeRepository.get_node db m false with
  | none => rw [hg] at h; cases h
  | some nm =>
      rw [hg] at h
      refine ⟨nm, rfl, ?_⟩
      injection h with h'
      exact h'.symm

theorem move_node_shape {db db' : DB} {m : Id} {p : Option Id} {t : Option Int}
    {now : Int} (h : TreeRepository.move_node db m p t now = .ok db') :
    db'.atoms = db.atoms ∧
    ∃ F : NodeRow → NodeRow,
      db'.nodes = db.nodes.map F ∧ SkeletonPreserving F ∧
      ∀ n, (F n).parent_uuid =
        if n.node_uuid = m ∧ n.is_deleted = false then p else n.parent_uuid := by
  obtain ⟨nm, hg, hdb⟩ := move_node_ok_elim h
  subst hdb
  set db₁ := updateNodes db (fun n => decide (n.node_uuid = m) && !n.is_deleted)
    (fun n => { n with parent_uuid := p, updated_at := now }) with hdb₁
  constructor
  · rw [applySortOrders_atoms]
    exact rfl
  · obtain ⟨F₂, hF₂n, hF₂s, hF₂p⟩ := applySortOrders_shape now _ db₁
    set g : NodeRow → NodeRow := fun n =>
      if decide (n.node_uuid = m) && !n.is_deleted then
        { n with parent_uuid := p, updated_at := now }
      else n with hgdef
    have hdb₁n : db₁.nodes = db.nodes.map g := rfl
    refine ⟨F₂ ∘ g, ?_, ?_, ?_⟩
    · rw [hF₂n, hdb₁n, List.map_map]
    · refine skeletonPreserving_comp hF₂s ?_
      intro n
      rw [hgdef]
      by_cases hc : (decide (n.node_uuid = m) && !n.is_deleted) = true
      · simp [hc]
      · simp [hc]
    · intro n
      rw [Function.comp_apply, hF₂p, hgdef]
      by_cases hc : (decide (n.node_uuid = m) && !n.is_deleted) = true
      · have hc' : n.node_uuid = m ∧ n.is_deleted = false := by
          simpa [Bool.and_eq_true, decide_eq_true_eq] using hc
        simp [hc, hc']
      · have hc' : ¬ (n.node_uuid = m ∧ n.is_deleted = false) := by
          simpa [Bool.and_eq_true, decide_eq_true_eq] using hc
        simp [hc, hc']

theorem nodeVisible_deleted_false {db : DB} {n : NodeRow}
    (h : nodeVisible db n = true) : n.is_deleted = false := by
  unfold nodeVisible at h
  rw [Bool.and_eq_true] at h
  simpa using h.1

theorem move_node_parent_map {db db' : DB} {m : Id} {p : Option Id}
    {t : Option Int} {now : Int}
    (h : TreeRepository.move_node db m p t now = .ok db') :
    (∀ x, x ≠ m → parentOf db' x = parentOf db x) ∧ parentOf db' m = p := by
  obtain ⟨nm, hg, _⟩ := move_node_ok_elim h
  obtain ⟨hatoms, F, hnodes, hskel, hparF⟩ := move_node_shape h
  have hfind : ∀ x, findNode db' x = (findNode db x).map F :=
    findNode_of_nodes_map hnodes (fun n => (hskel n).1)
  obtain ⟨hfm, hvm⟩ := get_node_false_elim hg
  have hmdel : nm.is_deleted = false := nodeVisible_deleted_false hvm
  have hmu : nm.node_uuid = m := (findNode_mem hfm).2
  constructor
  · intro x hx
    unfold parentOf
    rw [hfind]
    cases hf : findNode db x with
    | none => rfl
    | some n =>
        have hnu : n.node_uuid = x := (findNode_mem hf).2
        have hnc : ¬ (n.node_uuid = m ∧ n.is_deleted = false) := by
          intro hc
          exact hx (hnu ▸ hc.1)
        show (F n).parent_uuid = n.parent_uuid
        rw [hparF n, if_neg hnc]
  · unfold parentOf
    rw [hfind, hfm]
    show (F nm).parent_uuid = p
    rw [hparF nm, if_pos ⟨hmu, hmdel⟩]

theorem move_node_wf {db db' : DB} {m : Id} {p : Option Id} {t : Option Int}
    {now : Int} (h : TreeRepository.move_node db m p t now = .ok db')
    (wf : WF db) : WF db' ∧ db'.nodes.map (·.node_uuid) = db.nodes.map (·.node_uuid) ∧
      db'.atoms = db.atoms := by
  obtain ⟨hatoms, F, hnodes, hskel, _⟩ := move_node_shape h
  have huuid : db'.nodes.map (·.node_uuid) = db.nodes.map (·.node_uuid) := by
    rw [hnodes, List.map_map]
    exact List.map_congr_left (fun n _ => (hskel n).1)
  refine ⟨⟨?_, ?_⟩, huuid, hatoms⟩
  · rw [huuid]; exact wf.1
  · rw [hatoms]; exact wf.2

theorem move_node_deleted_map {db db' : DB} {m : Id} {p : Option Id}
    {t : Option Int} {now : Int}
    (h : TreeRepository.move_node db m p t now = .ok db') :
    ∀ n' ∈ db'.nodes, ∃ n ∈ db.nodes,
      n'.node_uuid = n.node_uuid ∧ n'.is_deleted = n.is_deleted := by
  obtain ⟨_, F, hnodes, hskel, _⟩ := move_node_shape h
  intro n' hm'
  rw [hnodes] at hm'
  obtain ⟨n, hn, rfl⟩ := List.mem_map.1 hm'
  exact ⟨n, hn, (hskel n).1, (hskel n).2.2.2⟩

/-! ### Service move: success structure -/

theorem svc_move_ok_elim {db db' : DB} {m : Id} {P : Option Id} {t : Option Int}
    {now : Int} (h : TreeService.move_node db m P t now = .ok db') :
    (∃ nm, TreeRepository.get_node db m false = some nm) ∧
    (P = none ∨ ∃ p, P = some p ∧ ¬ p = m ∧
      TreeService.would_create_cycle db m p = some (.ok false)) ∧
    TreeRepository.move_node db m P (t.map (fun v => max v 0)) now = .ok db' := by
  cases hg : TreeRepository.get_node db m false with
  | none => simp [TreeService.move_node, hg] at h
  | some nm =>
      cases P with
      | none =>
          cases hr : TreeRepository.move_node db m none (t.map (fun v => max v 0)) now with
          | ok dbr =>
              simp only [TreeService.move_node, hg, hr] at h
              injection h with h'
              exact ⟨⟨nm, rfl⟩, Or.inl rfl, by rw [h']⟩
          | error e => simp [TreeService.move_node, hg, hr] at h
      | some p =>
          by_cases hpm : p = m
          · simp [TreeService.move_node, hg, hpm] at h
          · cases he : TreeService.ensure_parent_is_folder db p with
            | error e => simp [TreeService.move_node, hg, hpm, he] at h
            | ok u =>
                cases hw : TreeService.would_create_cycle db m p with
                | none => simp [TreeService.move_node, hg, hpm, he, hw] at h
                | some r =>
                    cases r with
                    | error e => simp [TreeService.move_node, hg, hpm, he, hw] at h
                    | ok b =>
                        cases b with
                        | true => simp [TreeService.move_node, hg, hpm, he, hw] at h
                        | false =>
                            cases hr : TreeRepository.move_node db m (some p)
                                (t.map (fun v => max v 0)) now with
                            | ok dbr =>
                                simp only [TreeService.move_node, hg, hpm, he, hw, hr] at h
                                injection h with h'
                                exact ⟨⟨nm, rfl⟩, Or.inr ⟨p, rfl, hpm, hw⟩, by rw [h']⟩
                            | error e =>
                                simp [TreeService.move_node, hg, hpm, he, hw, hr] at h

/-! ### Acyclicity preservation -/

theorem move_preserves_acyclic {db db' : DB} {m : Id} {P : Option Id}
    {t : Option Int} {now : Int} (wf : WF db) (hac : Acyclic db)
    (h : TreeService.move_node db m P t now = .ok db') :
    Acyclic db' ∧ WF db' := by
  obtain ⟨⟨nm, hg⟩, hP, hrepo⟩ := svc_move_ok_elim h
  obtain ⟨wf', huuid, hatoms⟩ := move_node_wf hrepo wf
  obtain ⟨hother, hm⟩ := move_node_parent_map hrepo
  refine ⟨?_, wf'⟩
  intro n' hmem' hdel' k hk hcyc
  obtain ⟨n, hmem, huu, hdd⟩ := move_node_deleted_map hrepo n' hmem'
  by_cases hhit : ∃ l, l < k ∧ stepN db' l n'.node_uuid = some m
  · obtain ⟨l, hlk, hl⟩ := hhit
    have hcm : stepN db' k m = some m := cycle_shift hcyc hl
    rcases hP with hPn | ⟨p, hPp, hpm, hwcc⟩
    · have hPm : parentOf db' m = none := by rw [hm, hPn]
      rw [stepN_none_of_parentOf_none hPm hk] at hcm
      cases hcm
    · have hPm : parentOf db' m = some p := by rw [hm, hPp]
      obtain ⟨j, rfl⟩ : ∃ j, k = j + 1 := ⟨k - 1, by omega⟩
      rw [stepN_succ, hPm, Option.some_bind] at hcm
      have hex : ∃ i, stepN db' i p = some m := ⟨j, hcm⟩
      have hcongr : stepN db' (Nat.find hex) p = stepN db (Nat.find hex) p := by
        apply stepN_congr hother
        intro l' y hl' hy
        intro hye
        subst hye
        exact Nat.find_min hex hl' hy
      have hreach : stepN db (Nat.find hex) p = some m := by
        rw [← hcongr]
        exact Nat.find_spec hex
      have hwcc' : TreeService.cycleWalk db m (db.nodes.length + 1) [] (some p) =
          some (.ok false) := hwcc
      exact absurd rfl
        (cycleWalk_false_no_reach _ _ _ hwcc' (Nat.find hex) m
          (by simpa using hreach))
  · push_neg at hhit
    have hcongr : stepN db' k n'.node_uuid = stepN db k n'.node_uuid := by
      apply stepN_congr hother
      intro l y hl hy
      intro hye
      subst hye
      exact hhit l hl hy
    rw [hcongr, huu] at hcyc
    exact hac n hmem (hdd ▸ hdel') k hk (huu ▸ hcyc)

theorem applyMoves_preserves : ∀ (calls : List MoveCall) (db db' : DB),
    WF db → Acyclic db → applyMoves db calls = .ok db' → Acyclic db' ∧ WF db' := by
  intro calls
  induction calls with
  | nil =>
      intro db db' wf hac h
      injection h with h'
      rw [← h']
      exact ⟨hac, wf⟩
  | cons c cs ih =>
      intro db db' wf hac h
      cases hm : TreeService.move_node db c.node_uuid c.new_parent_uuid c.target_order
          c.now with
      | error e => simp [applyMoves, hm] at h
      | ok db₁ =>
          simp only [applyMoves, hm] at h
          obtain ⟨hac₁, wf₁⟩ := move_preserves_acyclic wf hac hm
          exact ih db₁ db' wf₁ hac₁ h

theorem would_create_cycle_total (db : DB) (m p : Id) :
    ∃ r, TreeService.would_create_cycle db m p = some r ∧
      (r = .ok true ∨ r = .ok false ∨ ∃ q, r = .error (.ParentNotFound q)) := by
  have hfil : (db.nodes.map (·.node_uuid)).filter
      (fun u => decide (u ∉ ([] : List Id))) = db.nodes.map (·.node_uuid) := by
    apply List.filter_eq_self.2
    intro a _
    simp
  have hlen : ((db.nodes.map (·.node_uuid)).filter
      (fun u => decide (u ∉ ([] : List Id)))).length < db.nodes.length + 1 := by
    rw [hfil, List.length_map]
    omega
  have hs := @cycleWalk_isSome db m (db.nodes.length + 1) [] p hlen
  cases hr : TreeService.cycleWalk db m (db.nodes.length + 1) [] (some p) with
  | none => rw [hr] at hs; cases hs
  | some r =>
      refine ⟨r, hr, ?_⟩
      cases r with
      | ok b =>
          cases b with
          | true => exact Or.inl rfl
          | false => exact Or.inr (Or.inl rfl)
      | error e =>
          obtain ⟨q, hq⟩ := cycleWalk_error_shape _ _ _ _ hr
          exact Or.inr (Or.inr ⟨q, by rw [hq]⟩)

/-! ### Small elimination helpers -/

theorem ensure_parent_error_shape {db : DB} {p : Id} {e : TreeServiceError}
    (h : TreeService.ensure_parent_is_folder db p = .error e) :
    e = .ParentNotFound p ∨ e = .ParentMustBeFolder p := by
  cases hg : TreeRepository.get_node db p false with
  | none =>
      simp only [TreeService.ensure_parent_is_folder, hg] at h
      injection h with h'
      exact Or.inl h'.symm
  | some n =>
      simp only [TreeService.ensure_parent_is_folder, hg] at h
      cases hk : n.kind with
      | folder => rw [hk] at h; cases h
      | note_ref =>
          rw [hk] at h
          injection h with h'
          exact Or.inr h'.symm

theorem repo_move_ok_of_visible {db : DB} {id : Id} {P : Option Id}
    {t : Option Int} {now : Int} {nm : NodeRow}
    (hg : TreeRepository.get_node db id false = some nm) :
    ∃ d, TreeRepository.move_node db id P t now = .ok d := by
  unfold TreeRepository.move_node
  rw [hg]
  exact ⟨_, rfl⟩

theorem find?_append_left_none {α : Type} {p : α → Bool} {l₁ l₂ : List α}
    (h : l₁.find? p = none) : (l₁ ++ l₂).find? p = l₂.find? p := by
  induction l₁ with
  | nil => rfl
  | cons a l ih =>
      by_cases hp : p a = true
      · rw [List.find?_cons_of_pos _ hp] at h
        cases h
      · rw [List.find?_cons_of_neg _ hp] at h
        rw [List.cons_append, List.find?_cons_of_neg _ hp]
        exact ih h

theorem load_required_node_append {db : DB} {x : Id} (row : NodeRow)
    (hnone : db.nodes.find?
      (fun n => decide (n.node_uuid = x) && !n.is_deleted) = none)
    (hu : row.node_uuid = x) (hd : row.is_deleted = false) :
    TreeRepository.load_required_node { db with nodes := db.nodes ++ [row] } x =
      .ok row := by
  unfold TreeRepository.load_required_node
  have key : ({ db with nodes := db.nodes ++ [row] } : DB).nodes.find?
      (fun n => decide (n.node_uuid = x) && !n.is_deleted) = some row := by
    have hproj : ({ db with nodes := db.nodes ++ [row] } : DB).nodes =
        db.nodes ++ [row] := rfl
    rw [hproj, find?_append_left_none hnone,
      List.find?_cons_of_pos _ (by simp [hu, hd])]
  rw [key]

theorem repo_create_note_ref_fields {db : DB} {P : Option Id} {a : Id}
    {nm : String} {newId : Id} {now : Int} {d : DB} {row : NodeRow}
    (h : TreeRepository.create_note_ref db P a nm newId now = .ok (d, row)) :
    row = { node_uuid := newId, kind := .note_ref, parent_uuid := P,
            atom_uuid := some a, display_name := nm,
            sort_order := TreeRepository.next_sort_order db P,
            is_deleted := false, created_at := now, updated_at := now } ∧
    d = { db with nodes := db.nodes ++ [row] } := by
  by_cases hany : db.nodes.any (fun n => decide (n.node_uuid = newId)) = true
  · simp only [TreeRepository.create_note_ref, hany, if_true] at h
    cases h
  · have hany' : db.nodes.any (fun n => decide (n.node_uuid = newId)) = false :=
      Bool.eq_false_iff.2 hany
    have hnone : db.nodes.find?
        (fun n => decide (n.node_uuid = newId) && !n.is_deleted) = none := by
      rw [List.find?_eq_none]
      intro x hx hpx
      rw [Bool.and_eq_true] at hpx
      exact hany (List.any_eq_true.2 ⟨x, hx, hpx.1⟩)
    simp only [TreeRepository.create_note_ref, hany', Bool.false_eq_true,
      if_false] at h
    rw [load_required_node_append
      { node_uuid := newId, kind := .note_ref, parent_uuid := P,
        atom_uuid := some a, display_name := nm,
        sort_order := TreeRepository.next_sort_order db P,
        is_deleted := false, created_at := now, updated_at := now }
      hnone rfl rfl] at h
    injection h with h'
    rw [Prod.mk.injEq] at h'
    obtain ⟨hdb, hrow⟩ := h'
    refine ⟨hrow.symm, ?_⟩
    rw [← hdb, ← hrow]

theorem repo_create_folder_fields {db : DB} {P : Option Id}
    {nm : String} {newId : Id} {now : Int} {d : DB} {row : NodeRow}
    (h : TreeRepository.create_folder db P nm newId now = .ok (d, row)) :
    row = { node_uuid := newId, kind := .folder, parent_uuid := P,
            atom_uuid := none, display_name := nm,
            sort_order := TreeRepository.next_sort_order db P,
            is_deleted := false, created_at := now, updated_at := now } ∧
    d = { db with nodes := db.nodes ++ [row] } := by
  by_cases hany : db.nodes.any (fun n => decide (n.node_uuid = newId)) = true
  · simp only [TreeRepository.create_folder, hany, if_true] at h
    cases h
  · have hany' : db.nodes.any (fun n => decide (n.node_uuid = newId)) = false :=
      Bool.eq_false_iff.2 hany
    have hnone : db.nodes.find?
        (fun n => decide (n.node_uuid = newId) && !n.is_deleted) = none := by
      rw [List.find?_eq_none]
      intro x hx hpx
      rw [Bool.and_eq_true] at hpx
      exact hany (List.any_eq_true.2 ⟨x, hx, hpx.1⟩)
    simp only [TreeRepository.create_folder, hany', Bool.false_eq_true,
      if_false] at h
    rw [load_required_node_append
      { node_uuid := newId, kind := .folder, parent_uuid := P,
        atom_uuid := none, display_name := nm,
        sort_order := TreeRepository.next_sort_order db P,
        is_deleted := false, created_at := now, updated_at := now }
      hnone rfl rfl] at h
    injection h with h'
    rw [Prod.mk.injEq] at h'
    obtain ⟨hdb, hrow⟩ := h'
    refine ⟨hrow.symm, ?_⟩
    rw [← hdb, ← hrow]

/-! ### Claim C9: self-parenting -/

/-- C9 (corrected): for a node id that is not visible, `move_node(X, Some(X), _)`
fails with `NodeNotFound`, not `CycleDetected`: on the empty database the
call returns `NodeNotFound 1`, falsifying "always fails with
`CycleDetected`, for any X". -/
theorem C9_counterexample :
    TreeService.move_node { nodes := [], atoms := [] } 1 (some 1) none 0 =
      .error (.NodeNotFound 1) ∧
    ¬ TreeService.move_node { nodes := [], atoms := [] } 1 (some 1) none 0 =
      .error (.CycleDetected 1 1) := by
  decide

/-- C9 (amended): `move_node(X, Some(X), _)` always fails, with
`CycleDetected` whenever X passes the visibility pre-check and
`NodeNotFound` otherwise; the self-parent rejection fires before the
parent-folder check and the ancestor walk. -/
theorem C9_self_parent_rejected (db : DB) (X : Id) (t : Option Int) (now : Int) :
    (TreeService.move_node db X (some X) t now = .error (.CycleDetected X X) ∨
     TreeService.move_node db X (some X) t now = .error (.NodeNotFound X)) ∧
    (∀ n, TreeRepository.get_node db X false = some n →
      TreeService.move_node db X (some X) t now = .error (.CycleDetected X X)) := by
  constructor
  · cases hg : TreeRepository.get_node db X false with
    | none =>
        right
        simp [TreeService.move_node, hg]
    | some n =>
        left
        simp [TreeService.move_node, hg]
  · intro n hg
    simp [TreeService.move_node, hg]

/-- C9 witness: on a database where folder 1 is visible, the self-parent
move is rejected with `CycleDetected`. -/
theorem C9_witness :
    TreeService.move_node dbOneFolder 1 (some 1) none 0 =
      .error (.CycleDetected 1 1) :=
  (C9_self_parent_rejected dbOneFolder 1 none 0).2 (folderRow 1 none 0) (by decide)

/-! ### Claim C6: the move_node existence pre-check -/

/-- C6 (corrected): a note_ref whose target atom is soft-deleted exists
and is not tombstoned, yet `move_node` rejects it with `NodeNotFound`,
falsifying "any node that exists and is not tombstoned (including a
NoteRef whose target atom has been deleted or retyped) passes this
check". -/
theorem C6_counterexample :
    findNode dbDanglingRef 1 = some (noteRefRow 1 none 50 0) ∧
    (noteRefRow 1 none 50 0).is_deleted = false ∧
    TreeService.move_node dbDanglingRef 1 none none 0 =
      .error (.NodeNotFound 1) := by
  decide

/-- C6 (amended): `TreeService.move_node` fails with `NodeNotFound id`
exactly when the filtered `get_node` read misses, i.e. when the node is
absent, tombstoned, or a note_ref whose target atom is not an active
note (a dangling reference). -/
theorem C6_move_precheck (db : DB) (id : Id) (P : Option Id) (t : Option Int)
    (now : Int) :
    (TreeService.move_node db id P t now = .error (.NodeNotFound id) ↔
      TreeRepository.get_node db id false = none) ∧
    (TreeRepository.get_node db id false = none ↔
      (findNode db id = none ∨
        ∃ n, findNode db id = some n ∧
          (n.is_deleted = true ∨
            (n.kind = .note_ref ∧ atomActiveNote db n.atom_uuid = false)))) := by
  constructor
  · constructor
    · intro h
      cases hg : TreeRepository.get_node db id false with
      | none => rfl
      | some nm =>
          exfalso
          cases P with
          | none =>
              simp [TreeService.move_node, hg, TreeRepository.move_node] at h
          | some p =>
              by_cases hpm : p = id
              · simp [TreeService.move_node, hg, hpm] at h
              · cases he : TreeService.ensure_parent_is_folder db p with
                | error e =>
                    simp [TreeService.move_node, hg, hpm, he] at h
                    rcases ensure_parent_error_shape he with h' | h' <;>
                      rw [h'] at h <;> cases h
                | ok u =>
                    cases hw : TreeService.would_create_cycle db id p with
                    | none => simp [TreeService.move_node, hg, hpm, he, hw] at h
                    | some r =>
                        cases r with
                        | error e =>
                            simp [TreeService.move_node, hg, hpm, he, hw] at h
                            obtain ⟨q, hq⟩ :=
                              cycleWalk_error_shape _ _ _ _ hw
                            rw [hq] at h
                            cases h
                        | ok b =>
                            cases b with
                            | true =>
                                simp [TreeService.move_node, hg, hpm, he, hw] at h
                            | false =>
                                simp [TreeService.move_node, hg, hpm, he, hw,
                                  TreeRepository.move_node] at h
    · intro h
      simp [TreeService.move_node, h]
  · constructor
    · intro h
      cases hf : findNode db id with
      | none => exact Or.inl rfl
      | some n =>
          refine Or.inr ⟨n, rfl, ?_⟩
          have hv := get_node_false_none_elim h n hf
          unfold nodeVisible at hv
          cases hd : n.is_deleted with
          | true => exact Or.inl rfl
          | false =>
              rw [hd] at hv
              simp only [Bool.not_false, Bool.true_and] at hv
              cases hk : n.kind with
              | folder => rw [hk] at hv; cases hv
              | note_ref =>
                  rw [hk] at hv
                  exact Or.inr ⟨rfl, hv⟩
    · intro h
      rcases h with hf | ⟨n, hf, hcond⟩
      · unfold TreeRepository.get_node
        rw [hf]
      · have hvis : nodeVisible db n = false := by
          unfold nodeVisible
          rcases hcond with hd | ⟨hk, ha⟩
          · simp [hd]
          · simp [hk, ha]
        unfold TreeRepository.get_node
        rw [hf]
        simp [hvis]

/-- C6 witness: the amended characterization applied to the dangling
note_ref database. -/
theorem C6_witness :
    TreeService.move_node dbDanglingRef 1 none none 0 =
      .error (.NodeNotFound 1) :=
  (C6_move_precheck dbDanglingRef 1 none none 0).1.2 (by decide)

/-! ### Claim C8: kind enforcement on create_note_ref -/

/-- C8 (confirmed): with a valid (or absent) parent, `create_note_ref`
fails with `AtomNotFound` when `atom_kind` is `none` (atom absent or
soft-deleted), fails with `AtomNotNote` when the atom is active but not a
note, and a successful call without a display name yields the default
`"Untitled note"`. -/
theorem C8_create_note_ref_kind_enforcement (db : DB) (P : Option Id) (a : Id)
    (name : Option String) (newId : Id) (now : Int)
    (hP : P = none ∨ ∃ p n, P = some p ∧
      TreeRepository.get_node db p false = some n ∧ n.kind = .folder) :
    (TreeRepository.atom_kind db a = .ok none →
      TreeService.create_note_ref db P a name newId now =
        .error (.AtomNotFound a)) ∧
    (∀ k, TreeRepository.atom_kind db a = .ok (some k) → ¬ k = .note →
      TreeService.create_note_ref db P a name newId now =
        .error (.AtomNotNote a)) ∧
    (∀ db' row, name = none →
      TreeService.create_note_ref db P a name newId now = .ok (db', row) →
      row.display_name = "Untitled note") := by
  have hpp : (match P with
      | some p => TreeService.ensure_parent_is_folder db p
      | none => (.ok () : Except TreeServiceError Unit)) = .ok () := by
    rcases hP with rfl | ⟨p, n, rfl, hg, hk⟩
    · rfl
    · simp [TreeService.ensure_parent_is_folder, hg, hk]
  refine ⟨?_, ?_, ?_⟩
  · intro hk
    have hens : TreeService.ensure_atom_is_note db a = .error (.AtomNotFound a) := by
      simp [TreeService.ensure_atom_is_note, hk]
    simp [TreeService.create_note_ref, hpp, hens]
  · intro k hk hkn
    have hens : TreeService.ensure_atom_is_note db a = .error (.AtomNotNote a) := by
      cases k with
      | note => exact absurd rfl hkn
      | task => simp [TreeService.ensure_atom_is_note, hk]
      | event => simp [TreeService.ensure_atom_is_note, hk]
    simp [TreeService.create_note_ref, hpp, hens]
  · intro db' row hname h
    subst hname
    cases hens : TreeService.ensure_atom_is_note db a with
    | error e => simp [TreeService.create_note_ref, hpp, hens] at h
    | ok u =>
        simp only [TreeService.create_note_ref, hpp, hens] at h
        cases hr : TreeRepository.create_note_ref db P a "Untitled note" newId now with
        | error e => rw [hr] at h; cases h
        | ok pr =>
            rw [hr] at h
            injection h with h'
            obtain ⟨d₀, row₀⟩ := pr
            rw [Prod.mk.injEq] at h'
            obtain ⟨hrf, _⟩ := repo_create_note_ref_fields hr
            rw [← h'.2, hrf]

/-- C8 witness: the three behaviors evaluated on a concrete atom store
(atom 99 absent, atom 52 a task, atom 51 an active note). -/
theorem C8_witness :
    TreeService.create_note_ref dbAtomKinds none 99 none 5 0 =
      .error (.AtomNotFound 99) ∧
    TreeService.create_note_ref dbAtomKinds none 52 none 5 0 =
      .error (.AtomNotNote 52) ∧
    ∀ db' row, TreeService.create_note_ref dbAtomKinds none 51 none 5 0 =
      .ok (db', row) → row.display_name = "Untitled note" := by
  refine ⟨?_, ?_, ?_⟩
  · exact (C8_create_note_ref_kind_enforcement dbAtomKinds none 99 none 5 0
      (Or.inl rfl)).1 (by decide)
  · exact (C8_create_note_ref_kind_enforcement dbAtomKinds none 52 none 5 0
      (Or.inl rfl)).2.1 .task (by decide) (by decide)
  · intro db' row h
    exact (C8_create_note_ref_kind_enforcement dbAtomKinds none 51 none 5 0
      (Or.inl rfl)).2.2 db' row rfl h

/-! ### Claim C7: reorder within one parent and target clamping -/

/-- C7 (confirmed): moving C (sort 2) to index 0 under the same parent
yields C, A, B with sort_order 0, 1, 2; a negative `target_order` is
clamped to zero by the service; a `target_order` beyond the visible
sibling count is clamped down to the list length by the repository. -/
theorem C7_reorder_and_clamp :
    ((TreeService.move_node dbReorder 4 (some 1) (some 0) 0).map
        (fun d => (TreeRepository.list_children d (some 1) false).map
          (fun n => (n.node_uuid, n.sort_order))) =
      .ok [(4, 0), (2, 1), (3, 2)]) ∧
    (∀ (db : DB) (id : Id) (P : Option Id) (t : Int) (now : Int), t ≤ 0 →
      TreeService.move_node db id P (some t) now =
        TreeService.move_node db id P (some 0) now) ∧
    (∀ (db : DB) (id : Id) (P : Option Id) (t : Int) (now : Int),
      (((TreeRepository.list_visible_child_ids db P).filter
          (fun s => decide (¬ s = id))).length : Int) ≤ t →
      TreeRepository.move_node db id P (some t) now =
        TreeRepository.move_node db id P
          (some (((TreeRepository.list_visible_child_ids db P).filter
            (fun s => decide (¬ s = id))).length : Int)) now) := by
  refine ⟨by decide, ?_, ?_⟩
  · intro db id P t now ht
    have hmap : (some t).map (fun v => max v 0) =
        (some (0 : Int)).map (fun v => max v 0) := by
      simp [max_eq_right ht]
    unfold TreeService.move_node
    rw [hmap]
  · intro db id P t now ht
    have hlen : (0 : Int) ≤
        (((TreeRepository.list_visible_child_ids db P).filter
          (fun s => decide (¬ s = id))).length : Int) := Int.natCast_nonneg _
    have hidx : TreeRepository.resolveTargetIndex (some t)
        ((TreeRepository.list_visible_child_ids db P).filter
          (fun s => decide (¬ s = id))).length =
        TreeRepository.resolveTargetIndex
          (some (((TreeRepository.list_visible_child_ids db P).filter
            (fun s => decide (¬ s = id))).length : Int))
          ((TreeRepository.list_visible_child_ids db P).filter
            (fun s => decide (¬ s = id))).length := by
      unfold TreeRepository.resolveTargetIndex
      simp only [Option.getD_some]
      rw [max_eq_left (le_trans hlen ht), max_eq_left hlen,
        min_eq_right ht, min_self]
    simp only [TreeRepository.move_node]
    rw [hidx]

/-- C7 witness: the two clamping statements applied at a concrete
negative and a concrete too-large target index. -/
theorem C7_witness :
    TreeService.move_node dbReorder 4 (some 1) (some (-5)) 0 =
      TreeService.move_node dbReorder 4 (some 1) (some 0) 0 ∧
    TreeRepository.move_node dbReorder 4 (some 1) (some 7) 0 =
      TreeRepository.move_node dbReorder 4 (some 1) (some 2) 0 := by
  constructor
  · exact C7_reorder_and_clamp.2.1 dbReorder 4 (some 1) (-5) 0 (by decide)
  · have h := C7_reorder_and_clamp.2.2 dbReorder 4 (some 1) 7 0 (by decide)
    simpa using h

/-! ### Claim C2: move_node transaction semantics -/

theorem sortUpdatesRun_none_result (now : Int) :
    ∀ (l : List (Nat × Id)) (work : DB) (k : Nat),
      (TreeRepository.sortUpdatesRun now none work k l).1 =
        .ok (TreeRepository.applySortOrders now work l) := by
  intro l
  induction l with
  | nil => intro work k; rfl
  | cons a rest ih =>
      intro work k
      obtain ⟨i, x⟩ := a
      simp only [TreeRepository.sortUpdatesRun, TreeRepository.applySortOrders]
      rw [if_neg (by simp)]
      exact ih _ _

theorem sortUpdatesRun_trace_writes (now : Int) (failAt : Option Nat) :
    ∀ (l : List (Nat × Id)) (work : DB) (k : Nat),
      ∀ ev ∈ (TreeRepository.sortUpdatesRun now failAt work k l).2,
        ev = SqlEvent.writeSortUpdate := by
  intro l
  induction l with
  | nil => intro work k ev hev; cases hev
  | cons a rest ih =>
      intro work k ev hev
      obtain ⟨i, x⟩ := a
      by_cases hf : failAt = some k
      · simp only [TreeRepository.sortUpdatesRun, if_pos hf] at hev
        simpa using hev
      · simp only [TreeRepository.sortUpdatesRun, if_neg hf] at hev
        rcases List.mem_cons.1 hev with h | h
        · exact h
        · exact ih _ _ ev h

/-- C2 (amended): the repository's `move_node` performs its existence
pre-check read before acquiring the immediate-mode transaction; the
sibling-list read and every update statement run inside that one
transaction, and if any in-transaction statement fails every statement is
rolled back, leaving the stored tree (hence the children list of every
parent) exactly its pre-call state; a failure-free run commits exactly
the state computed by `move_node`. -/
theorem C2_move_node_transaction (db : DB) (id : Id) (P : Option Id)
    (t : Option Int) (now : Int) (failAt : Option Nat) :
    (∀ e, (TreeRepository.move_node_run db id P t now failAt).result = .error e →
      (TreeRepository.move_node_run db id P t now failAt).db = db) ∧
    (∀ e, (TreeRepository.move_node_run db id P t now failAt).result = .error e →
      ∀ (q : Option Id) (b : Bool),
        TreeRepository.list_children
          (TreeRepository.move_node_run db id P t now failAt).db q b =
        TreeRepository.list_children db q b) ∧
    ((TreeRepository.move_node_run db id P t now none).result = .ok () →
      TreeRepository.move_node db id P t now =
        .ok ((TreeRepository.move_node_run db id P t now none).db)) ∧
    ((TreeRepository.move_node_run db id P t now failAt).trace =
        [SqlEvent.readGetNode] ∨
      ∃ rest, (TreeRepository.move_node_run db id P t now failAt).trace =
          SqlEvent.readGetNode :: SqlEvent.beginImmediate ::
            SqlEvent.readChildren :: rest ∧
        ∀ ev ∈ rest, ev = SqlEvent.writeParentUpdate ∨
          ev = SqlEvent.writeSortUpdate ∨ ev = SqlEvent.commitTx) := by
  have hrollback : ∀ e,
      (TreeRepository.move_node_run db id P t now failAt).result = .error e →
      (TreeRepository.move_node_run db id P t now failAt).db = db := by
    intro e he
    unfold TreeRepository.move_node_run at he ⊢
    cases hg : TreeRepository.get_node db id false with
    | none => simp [hg]
    | some nm =>
        simp only [hg] at he ⊢
        by_cases hf : failAt = some 0
        · simp [if_pos hf]
        · simp only [if_neg hf] at he ⊢
          cases hsr : TreeRepository.sortUpdatesRun now failAt
              (updateNodes db (fun n => decide (n.node_uuid = id) && !n.is_deleted)
                (fun n => { n with parent_uuid := P, updated_at := now }))
              1 ((TreeRepository.insertAt
                  ((TreeRepository.list_visible_child_ids db P).filter
                    (fun s => decide (¬ s = id)))
                  (TreeRepository.resolveTargetIndex t
                    ((TreeRepository.list_visible_child_ids db P).filter
                      (fun s => decide (¬ s = id))).length)
                  id).enum) with
          | mk r evs =>
              simp only [hsr] at he ⊢
              cases r with
              | ok w => simp at he
              | error e' => simp
  refine ⟨hrollback, ?_, ?_, ?_⟩
  · intro e he q b
    rw [hrollback e he]
  · intro hok
    cases hg : TreeRepository.get_node db id false with
    | none =>
        have hrun : (TreeRepository.move_node_run db id P t now none).result =
            .error (.NodeNotFound id) := by
          unfold TreeRepository.move_node_run
          simp only [hg]
        rw [hok] at hrun
        cases hrun
    | some nm =>
        cases hsr : TreeRepository.sortUpdatesRun now none
            (updateNodes db (fun n => decide (n.node_uuid = id) && !n.is_deleted)
              (fun n => { n with parent_uuid := P, updated_at := now }))
            1 ((TreeRepository.insertAt
                ((TreeRepository.list_visible_child_ids db P).filter
                  (fun s => decide (¬ s = id)))
                (TreeRepository.resolveTargetIndex t
                  ((TreeRepository.list_visible_child_ids db P).filter
                    (fun s => decide (¬ s = id))).length)
                id).enum) with
        | mk r evs =>
            cases r with
            | error e' =>
                have hrun : (TreeRepository.move_node_run db id P t now none).result =
                    .error e' := by
                  unfold TreeRepository.move_node_run
                  simp only [hg]
                  rw [if_neg (by simp), hsr]
                rw [hok] at hrun
                cases hrun
            | ok w =>
                have hrun : (TreeRepository.move_node_run db id P t now none).db = w := by
                  unfold TreeRepository.move_node_run
                  simp only [hg]
                  rw [if_neg (by simp), hsr]
                have hw := sortUpdatesRun_none_result now
                  ((TreeRepository.insertAt
                      ((TreeRepository.list_visible_child_ids db P).filter
                        (fun s => decide (¬ s = id)))
                      (TreeRepository.resolveTargetIndex t
                        ((TreeRepository.list_visible_child_ids db P).filter
                          (fun s => decide (¬ s = id))).length)
                      id).enum)
                  (updateNodes db
                    (fun n => decide (n.node_uuid = id) && !n.is_deleted)
                    (fun n => { n with parent_uuid := P, updated_at := now })) 1
                rw [hsr] at hw
                injection hw with hw'
                rw [hrun, hw']
                unfold TreeRepository.move_node
                rw [hg]
  · unfold TreeRepository.move_node_run
    cases hg : TreeRepository.get_node db id false with
    | none => simp [hg]
    | some nm =>
        simp only [hg]
        right
        by_cases hf : failAt = some 0
        · refine ⟨[SqlEvent.writeParentUpdate], ?_, ?_⟩
          · simp [if_pos hf]
          · intro ev hev
            rcases List.mem_singleton.1 hev with rfl
            exact Or.inl rfl
        · rw [if_neg hf]
          cases hsr : TreeRepository.sortUpdatesRun now failAt
              (updateNodes db (fun n => decide (n.node_uuid = id) && !n.is_deleted)
                (fun n => { n with parent_uuid := P, updated_at := now }))
              1 ((TreeRepository.insertAt
                  ((TreeRepository.list_visible_child_ids db P).filter
                    (fun s => decide (¬ s = id)))
                  (TreeRepository.resolveTargetIndex t
                    ((TreeRepository.list_visible_child_ids db P).filter
                      (fun s => decide (¬ s = id))).length)
                  id).enum) with
          | mk r evs =>
              have hevs : ∀ ev ∈ evs, ev = SqlEvent.writeSortUpdate := by
                intro ev hev
                have hh := sortUpdatesRun_trace_writes now failAt
                  ((TreeRepository.insertAt
                      ((TreeRepository.list_visible_child_ids db P).filter
                        (fun s => decide (¬ s = id)))
                      (TreeRepository.resolveTargetIndex t
                        ((TreeRepository.list_visible_child_ids db P).filter
                          (fun s => decide (¬ s = id))).length)
                      id).enum)
                  (updateNodes db
                    (fun n => decide (n.node_uuid = id) && !n.is_deleted)
                    (fun n => { n with parent_uuid := P, updated_at := now })) 1 ev
                rw [hsr] at hh
                exact hh hev
              cases r with
              | ok w =>
                  refine ⟨SqlEvent.writeParentUpdate :: (evs ++ [SqlEvent.commitTx]),
                    by simp, ?_⟩
                  intro ev hev
                  rcases List.mem_cons.1 hev with rfl | hev
                  · exact Or.inl rfl
                  · rcases List.mem_append.1 hev with hev | hev
                    · exact Or.inr (Or.inl (hevs ev hev))
                    · rcases List.mem_singleton.1 hev with rfl
                      exact Or.inr (Or.inr rfl)
              | error e' =>
                  refine ⟨SqlEvent.writeParentUpdate :: evs, by simp, ?_⟩
                  intro ev hev
                  rcases List.mem_cons.1 hev with rfl | hev
                  · exact Or.inl rfl
                  · exact Or.inr (Or.inl (hevs ev hev))

/-- C2 (corrected): the existence pre-check is a decision-making read
(it alone produces `NodeNotFound`) and it executes before
`beginImmediate`, so the transaction is not acquired before every
decision-making read: the full trace on a successful move starts with
the read, and on a missing node the call returns after that read without
ever opening the transaction. -/
theorem C2_counterexample :
    (TreeRepository.move_node_run dbOneFolder 1 none none 0 none).trace =
      [SqlEvent.readGetNode, SqlEvent.beginImmediate, SqlEvent.readChildren,
       SqlEvent.writeParentUpdate, SqlEvent.writeSortUpdate,
       SqlEvent.commitTx] ∧
    TreeRepository.move_node_run dbOneFolder 5 none none 0 none =
      ⟨.error (.NodeNotFound 5), dbOneFolder, [SqlEvent.readGetNode]⟩ := by
  decide

/-- C2 witness: an injected failure of the first in-transaction sibling
update rolls the stored tree back to its pre-call state. -/
theorem C2_witness :
    (TreeRepository.move_node_run dbOneFolder 1 none none 0 (some 1)).db =
      dbOneFolder :=
  (C2_move_node_transaction dbOneFolder 1 none none 0 (some 1)).1
    (.Db "injected statement failure") (by decide)

/-! ### Membership and uniqueness of child-id listings -/

theorem mem_sorted_filter_ids {db : DB} {q : NodeRow → Bool} {x : Id} :
    x ∈ (sortNodes (db.nodes.filter q)).map (·.node_uuid) ↔
      ∃ n, n ∈ db.nodes ∧ n.node_uuid = x ∧ q n = true := by
  constructor
  · intro hx
    obtain ⟨r, hr, rfl⟩ := List.mem_map.1 hx
    have hr' := (sortNodes_perm _).mem_iff.1 hr
    exact ⟨r, (List.mem_filter.1 hr').1, rfl, (List.mem_filter.1 hr').2⟩
  · rintro ⟨n, hn, rfl, hq⟩
    exact List.mem_map_of_mem _
      ((sortNodes_perm _).mem_iff.2 (List.mem_filter.2 ⟨hn, hq⟩))

theorem sorted_filter_ids_nodup {db : DB}
    (wf1 : (db.nodes.map (·.node_uuid)).Nodup) (q : NodeRow → Bool) :
    ((sortNodes (db.nodes.filter q)).map (·.node_uuid)).Nodup := by
  have hperm : List.Perm ((sortNodes (db.nodes.filter q)).map (·.node_uuid))
      ((db.nodes.filter q).map (·.node_uuid)) := (sortNodes_perm _).map _
  rw [hperm.nodup_iff]
  exact List.Nodup.sublist (List.Sublist.map _ (List.filter_sublist db.nodes)) wf1

theorem findNode_of_find_active {db : DB} {x : Id} {n : NodeRow}
    (wf1 : (db.nodes.map (·.node_uuid)).Nodup)
    (h : db.nodes.find? (fun n => decide (n.node_uuid = x) && !n.is_deleted) =
      some n) :
    findNode db x = some n ∧ n.is_deleted = false ∧ n.node_uuid = x := by
  have hm := List.mem_of_find?_eq_some h
  have hp := List.find?_some h
  rw [Bool.and_eq_true] at hp
  have hu : n.node_uuid = x := by simpa using hp.1
  have hd : n.is_deleted = false := by simpa using hp.2
  exact ⟨hu ▸ findNode_self wf1 hm, hd, hu⟩

theorem ensure_active_folder_elim {db : DB} {folder : Id}
    (h : TreeRepository.ensure_active_folder_exists db folder = .ok ()) :
    ∃ n, db.nodes.find?
        (fun n => decide (n.node_uuid = folder) && !n.is_deleted) = some n ∧
      n.kind = .folder := by
  cases hf : db.nodes.find?
      (fun n => decide (n.node_uuid = folder) && !n.is_deleted) with
  | none => simp [TreeRepository.ensure_active_folder_exists, hf] at h
  | some n =>
      simp only [TreeRepository.ensure_active_folder_exists, hf] at h
      cases hk : n.kind with
      | folder => exact ⟨n, rfl, hk⟩
      | note_ref => rw [hk] at h; simp at h

theorem dissolve_ok_elim {db db' : DB} {folder : Id} {now : Int}
    (h : TreeRepository.delete_folder_dissolve db folder now = .ok db') :
    TreeRepository.ensure_active_folder_exists db folder = .ok () ∧
    db' = updateNodes
      (TreeRepository.applyDissolveMoves now (TreeRepository.next_sort_order db none)
        db (TreeRepository.list_active_child_ids db (some folder)).enum)
      (fun n => decide (n.node_uuid = folder) &&
        decide (n.kind = WorkspaceNodeKind.folder) && !n.is_deleted)
      (fun n => { n with is_deleted := true, updated_at := now }) := by
  cases he : TreeRepository.ensure_active_folder_exists db folder with
  | error e =>
      unfold TreeRepository.delete_folder_dissolve at h
      rw [he] at h
      cases h
  | ok u =>
      obtain ⟨⟩ := u
      refine ⟨rfl, ?_⟩
      unfold TreeRepository.delete_folder_dissolve at h
      rw [he] at h
      injection h with h'
      exact h'.symm

/-! ### Claim C5: dissolve semantics -/

/-- C5 (confirmed): a successful `delete_folder_dissolve` on an active
folder tombstones the folder row, reparents each of its direct
non-deleted children (dangling note_refs included, since the child
listing has no visibility join) to root level with sort_order values
appended after the current maximum root sort_order in listing order, and
leaves every other node row and the whole atom table untouched — in
particular everything below the reparented children. -/
theorem C5_dissolve_semantics (db db' : DB) (folder : Id) (now : Int)
    (wf : WF db)
    (hnc : ¬ folder ∈ TreeRepository.list_active_child_ids db (some folder))
    (h : TreeRepository.delete_folder_dissolve db folder now = .ok db') :
    (∃ nf, findNode db folder = some nf ∧ nf.kind = .folder ∧
      nf.is_deleted = false ∧
      findNode db' folder = some { nf with is_deleted := true, updated_at := now }) ∧
    (∀ i x, (i, x) ∈ (TreeRepository.list_active_child_ids db (some folder)).enum →
      ∀ n, findNode db x = some n →
        findNode db' x = some
          { n with
            parent_uuid := none
            sort_order := TreeRepository.next_sort_order db none + (i : Int)
            updated_at := now }) ∧
    (∀ x, ¬ x = folder →
      ¬ x ∈ TreeRepository.list_active_child_ids db (some folder) →
      findNode db' x = findNode db x) ∧
    db'.atoms = db.atoms := by
  obtain ⟨hens, hdb⟩ := dissolve_ok_elim h
  obtain ⟨nf, hfind, hkind⟩ := ensure_active_folder_elim hens
  obtain ⟨hnf, hnfdel, hnfu⟩ := findNode_of_find_active wf.1 hfind
  have henum : (TreeRepository.list_active_child_ids db (some folder)).enum.map
      Prod.snd = TreeRepository.list_active_child_ids db (some folder) :=
    List.enum_map_snd _
  have hchild_nodup :
      (TreeRepository.list_active_child_ids db (some folder)).Nodup :=
    sorted_filter_ids_nodup wf.1 _
  have hfolder_mid : findNode
      (TreeRepository.applyDissolveMoves now (TreeRepository.next_sort_order db none)
        db (TreeRepository.list_active_child_ids db (some folder)).enum) folder =
      findNode db folder := by
    apply applyDissolveMoves_untouched
    rw [henum]
    exact hnc
  subst hdb
  refine ⟨?_, ?_, ?_, ?_⟩
  · refine ⟨nf, hnf, hkind, hnfdel, ?_⟩
    rw [findNode_updateNodes (by intro n hn; rfl), hfolder_mid, hnf]
    have hpred : (decide (nf.node_uuid = folder) &&
        decide (nf.kind = WorkspaceNodeKind.folder) && !nf.is_deleted) = true := by
      simp [hnfu, hkind, hnfdel]
    rw [Option.map_some', if_pos hpred]
  · intro i x hix n hn
    have hx : x ∈ TreeRepository.list_active_child_ids db (some folder) := by
      rw [← henum]
      exact List.mem_map_of_mem _ hix
    obtain ⟨n', hn', hnu', hq'⟩ := mem_sorted_filter_ids.1 hx
    rw [Bool.and_eq_true] at hq'
    have hne : n' = n := by
      have hself := findNode_self wf.1 hn'
      rw [hnu'] at hself
      rw [hself] at hn
      injection hn
    have hdel : n.is_deleted = false := by
      rw [← hne]
      simpa using hq'.2
    have hnu : n.node_uuid = x := (findNode_mem hn).2
    have hxf : ¬ x = folder := fun he => hnc (he ▸ hx)
    have hmid := applyDissolveMoves_hit now (TreeRepository.next_sort_order db none)
      (TreeRepository.list_active_child_ids db (some folder)).enum db i x n
      (by rw [henum]; exact hchild_nodup) hix hn hdel
    rw [findNode_updateNodes (by intro m hm; rfl), hmid, Option.map_some']
    rw [if_neg (by simp [hnu, hxf])]
  · intro x hxf hxc
    rw [findNode_updateNodes (by intro m hm; rfl)]
    rw [applyDissolveMoves_untouched now _ _ _ x (by rw [henum]; exact hxc)]
    cases hfx : findNode db x with
    | none => rfl
    | some n =>
        have hnux : n.node_uuid = x := (findNode_mem hfx).2
        rw [Option.map_some', if_neg (by simp [hnux, hxf])]
  · rw [updateNodes_atoms, applyDissolveMoves_atoms]

/-! ### Atom-table lookup and update lemmas -/

theorem findAtom_mem {db : DB} {x : Id} {r : AtomRow} (h : findAtom db x = some r) :
    r ∈ db.atoms ∧ r.uuid = x := by
  refine ⟨List.mem_of_find?_eq_some h, ?_⟩
  have hp := List.find?_some h
  simpa using hp

theorem find?_akey_self {l : List AtomRow} {r : AtomRow}
    (wf : (l.map (·.uuid)).Nodup) (hr : r ∈ l) :
    l.find? (fun s => decide (s.uuid = r.uuid)) = some r := by
  induction l with
  | nil => cases hr
  | cons a l ih =>
      rcases List.mem_cons.1 hr with h | h
      · subst h
        simp [List.find?]
      · have hne : ¬ a.uuid = r.uuid := by
          intro he
          have : r.uuid ∈ l.map (·.uuid) := List.mem_map_of_mem _ h
          rw [List.map_cons, List.nodup_cons] at wf
          exact wf.1 (he ▸ this)
        have wf' : (l.map (·.uuid)).Nodup := by
          rw [List.map_cons, List.nodup_cons] at wf
          exact wf.2
        simp [List.find?, hne, ih wf' h]

theorem findAtom_self {db : DB} {r : AtomRow}
    (wf : (db.atoms.map (·.uuid)).Nodup) (hr : r ∈ db.atoms) :
    findAtom db r.uuid = some r :=
  find?_akey_self wf hr

theorem find?_akey_map_ite {l : List AtomRow} {pred : AtomRow → Bool}
    {f : AtomRow → AtomRow}
    (h : ∀ r, pred r = true → (f r).uuid = r.uuid) (x : Id) :
    (l.map (fun r => if pred r then f r else r)).find?
        (fun s => decide (s.uuid = x)) =
      (l.find? (fun s => decide (s.uuid = x))).map
        (fun r => if pred r then f r else r) := by
  induction l with
  | nil => rfl
  | cons a l ih =>
      by_cases hp : pred a = true
      · by_cases hx : a.uuid = x
        · simp [List.find?, hp, h a hp, hx]
        · simp [List.find?, hp, h a hp, hx, ih]
      · by_cases hx : a.uuid = x
        · simp [List.find?, hp, hx]
        · simp [List.find?, hp, hx, ih]

theorem findAtom_updateAtoms {pred : AtomRow → Bool} {f : AtomRow → AtomRow}
    (h : ∀ r, pred r = true → (f r).uuid = r.uuid) (db : DB) (x : Id) :
    findAtom (updateAtoms db pred f) x =
      (findAtom db x).map (fun r => if pred r then f r else r) :=
  find?_akey_map_ite h x

/-! ### Delete-all decomposition lemmas -/

theorem gcAtoms_nodes (now : Int) :
    ∀ (l : List Id) (db : DB), (TreeRepository.gcAtoms now db l).nodes = db.nodes := by
  intro l
  induction l with
  | nil => intro db; rfl
  | cons a rest ih =>
      intro db
      by_cases hr : TreeRepository.has_other_active_refs db a = true
      · simpa [TreeRepository.gcAtoms, hr] using ih _
      · simp only [TreeRepository.gcAtoms, hr, Bool.false_eq_true, if_false]
        rw [ih _]
        rfl

theorem has_other_active_refs_congr {db db' : DB} (h : db'.nodes = db.nodes)
    (a : Id) : TreeRepository.has_other_active_refs db' a =
      TreeRepository.has_other_active_refs db a := by
  unfold TreeRepository.has_other_active_refs
  rw [h]

theorem gcAtoms_untouched (now : Int) :
    ∀ (l : List Id) (db : DB) (u : Id), ¬ u ∈ l →
      findAtom (TreeRepository.gcAtoms now db l) u = findAtom db u := by
  intro l
  induction l with
  | nil => intro db u _; rfl
  | cons a rest ih =>
      intro db u hu
      simp only [List.mem_cons, not_or] at hu
      by_cases hr : TreeRepository.has_other_active_refs db a = true
      · simpa [TreeRepository.gcAtoms, hr] using ih _ u hu.2
      · simp only [TreeRepository.gcAtoms, hr, Bool.false_eq_true, if_false]
        rw [ih _ u hu.2, findAtom_updateAtoms (by intro r hrp; rfl)]
        cases hf : findAtom db u with
        | none => rfl
        | some r =>
            have hru : r.uuid = u := (findAtom_mem hf).2
            rw [Option.map_some', if_neg (by simp [hru, hu.1])]

theorem gcAtoms_hit (now : Int) :
    ∀ (l : List Id) (db : DB) (u : Id) (r : AtomRow), l.Nodup → u ∈ l →
      findAtom db u = some r →
      findAtom (TreeRepository.gcAtoms now db l) u =
        some (if (!(TreeRepository.has_other_active_refs db u) &&
            decide (r.type = AtomType.note) && !r.is_deleted) = true
          then { r with is_deleted := true, updated_at := now } else r) := by
  intro l
  induction l with
  | nil => intro db u r _ hu; cases hu
  | cons a rest ih =>
      intro db u r hnd hu hf
      rw [List.nodup_cons] at hnd
      rcases List.mem_cons.1 hu with rfl | hmem
      · by_cases hr : TreeRepository.has_other_active_refs db u = true
        · rw [show TreeRepository.gcAtoms now db (u :: rest) =
              TreeRepository.gcAtoms now db rest by
            simp [TreeRepository.gcAtoms, hr]]
          rw [gcAtoms_untouched now rest db u hnd.1, hf]
          rw [hr]
          simp
        · have hrf : TreeRepository.has_other_active_refs db u = false :=
            Bool.eq_false_iff.2 hr
          rw [show TreeRepository.gcAtoms now db (u :: rest) =
              TreeRepository.gcAtoms now
                (updateAtoms db
                  (fun s => decide (s.uuid = u) && decide (s.type = AtomType.note) &&
                    !s.is_deleted)
                  (fun s => { s with is_deleted := true, updated_at := now })) rest by
            simp [TreeRepository.gcAtoms, hrf]]
          rw [gcAtoms_untouched now rest _ u hnd.1]
          rw [findAtom_updateAtoms (by intro s hsp; rfl), hf, Option.map_some']
          have hru : r.uuid = u := (findAtom_mem hf).2
          rw [hrf]
          by_cases hcond : (decide (r.type = AtomType.note) && !r.is_deleted) = true
          · rw [if_pos (by simp [hru, hcond]), if_pos (by simpa using hcond)]
          · rw [if_neg (by simp [hru]; simpa using hcond),
              if_neg (by simpa using hcond)]
      · have hau : ¬ u = a := by
          intro he
          subst he
          exact hnd.1 hmem
        by_cases hr : TreeRepository.has_other_active_refs db a = true
        · rw [show TreeRepository.gcAtoms now db (a :: rest) =
              TreeRepository.gcAtoms now db rest by
            simp [TreeRepository.gcAtoms, hr]]
          exact ih db u r hnd.2 hmem hf
        · have hrf : TreeRepository.has_other_active_refs db a = false :=
            Bool.eq_false_iff.2 hr
          rw [show TreeRepository.gcAtoms now db (a :: rest) =
              TreeRepository.gcAtoms now
                (updateAtoms db
                  (fun s => decide (s.uuid = a) && decide (s.type = AtomType.note) &&
                    !s.is_deleted)
                  (fun s => { s with is_deleted := true, updated_at := now })) rest by
            simp [TreeRepository.gcAtoms, hrf]]
          have hfa : findAtom (updateAtoms db
              (fun s => decide (s.uuid = a) && decide (s.type = AtomType.note) &&
                !s.is_deleted)
              (fun s => { s with is_deleted := true, updated_at := now })) u =
              some r := by
            rw [findAtom_updateAtoms (by intro s hsp; rfl), hf, Option.map_some']
            have hru : r.uuid = u := (findAtom_mem hf).2
            rw [if_neg (by simp [hru, hau])]
          have hrefs := has_other_active_refs_congr
            (updateAtoms_nodes db
              (fun s => decide (s.uuid = a) && decide (s.type = AtomType.note) &&
                !s.is_deleted)
              (fun s => { s with is_deleted := true, updated_at := now })) u
          rw [ih _ u r hnd.2 hmem hfa, hrefs]

theorem delete_all_ok_elim {db db' : DB} {folder : Id} {now : Int}
    (h : TreeRepository.delete_folder_delete_all db folder now = .ok db') :
    TreeRepository.ensure_active_folder_exists db folder = .ok () ∧
    db' = TreeRepository.gcAtoms now
      (TreeRepository.soft_delete_workspace_subtree db folder now)
      (TreeRepository.list_referenced_note_atoms_in_subtree db folder) := by
  cases he : TreeRepository.ensure_active_folder_exists db folder with
  | error e =>
      unfold TreeRepository.delete_folder_delete_all at h
      rw [he] at h
      cases h
  | ok u =>
      obtain ⟨⟩ := u
      refine ⟨rfl, ?_⟩
      unfold TreeRepository.delete_folder_delete_all at h
      rw [he] at h
      injection h with h'
      exact h'.symm

theorem findNode_nodes_congr {db db' : DB} (h : db'.nodes = db.nodes) (x : Id) :
    findNode db' x = findNode db x := by
  unfold findNode
  rw [h]

theorem has_refs_after_tombstone (db : DB) (folder : Id) (now : Int) (u : Id) :
    TreeRepository.has_other_active_refs
        (TreeRepository.soft_delete_workspace_subtree db folder now) u = true ↔
      ∃ n, n ∈ db.nodes ∧ n.kind = .note_ref ∧ n.is_deleted = false ∧
        n.atom_uuid = some u ∧
        ¬ (TreeRepository.subtreeIds db folder).contains n.node_uuid = true := by
  have hmap : (TreeRepository.soft_delete_workspace_subtree db folder now).nodes =
      db.nodes.map (fun n =>
        if ((TreeRepository.subtreeIds db folder).contains n.node_uuid &&
            !n.is_deleted) then
          { n with is_deleted := true, updated_at := now } else n) := rfl
  unfold TreeRepository.has_other_active_refs
  rw [hmap, List.any_map, List.any_eq_true]
  constructor
  · rintro ⟨n, hn, hp⟩
    simp only [Function.comp_apply] at hp
    by_cases hc : ((TreeRepository.subtreeIds db folder).contains n.node_uuid &&
        !n.is_deleted) = true
    · rw [if_pos hc] at hp
      simp at hp
    · rw [if_neg hc] at hp
      rw [Bool.and_eq_true, Bool.and_eq_true] at hp
      obtain ⟨⟨hk, ha⟩, hd⟩ := hp
      refine ⟨n, hn, by simpa using hk, by simpa using hd, by simpa using ha, ?_⟩
      intro hcont
      apply hc
      rw [Bool.and_eq_true]
      refine ⟨hcont, ?_⟩
      simp only [Bool.not_eq_true'] at hd ⊢
      exact hd
  · rintro ⟨n, hn, hk, hd, ha, hnc⟩
    refine ⟨n, hn, ?_⟩
    simp only [Function.comp_apply]
    rw [if_neg ?_]
    · simp [hk, hd, ha]
    · rw [Bool.and_eq_true]
      rintro ⟨h1, _⟩
      exact hnc h1

theorem delete_all_characterization {db db' : DB} {folder : Id} {now : Int}
    (wf : WF db)
    (h : TreeRepository.delete_folder_delete_all db folder now = .ok db') :
    db'.nodes = (TreeRepository.soft_delete_workspace_subtree db folder now).nodes ∧
    ∀ a ∈ db.atoms,
      (gcCondition db folder a →
        findAtom db' a.uuid = some { a with is_deleted := true, updated_at := now }) ∧
      (¬ gcCondition db folder a → findAtom db' a.uuid = some a) := by
  obtain ⟨hens, hdb⟩ := delete_all_ok_elim h
  subst hdb
  refine ⟨gcAtoms_nodes now _ _, ?_⟩
  intro a ha
  have hfa₁ : findAtom (TreeRepository.soft_delete_workspace_subtree db folder now)
      a.uuid = some a := by
    have : findAtom (TreeRepository.soft_delete_workspace_subtree db folder now)
        a.uuid = findAtom db a.uuid := rfl
    rw [this]
    exact findAtom_self wf.2 ha
  by_cases hmem : a.uuid ∈ TreeRepository.list_referenced_note_atoms_in_subtree db folder
  · have hnd : (TreeRepository.list_referenced_note_atoms_in_subtree db folder).Nodup :=
      List.nodup_dedup _
    have hhit := gcAtoms_hit now _ _ a.uuid a hnd hmem hfa₁
    constructor
    · intro hgc
      obtain ⟨hdel, hty, _, hno⟩ := hgc
      cases hrb : TreeRepository.has_other_active_refs
          (TreeRepository.soft_delete_workspace_subtree db folder now) a.uuid with
      | true =>
          exfalso
          exact hno ((has_refs_after_tombstone db folder now a.uuid).1 hrb)
      | false =>
          rw [hhit, hrb, if_pos (by simp [hty, hdel])]
    · intro hngc
      rw [hhit, if_neg ?_]
      intro hcond
      apply hngc
      rw [Bool.and_eq_true, Bool.and_eq_true] at hcond
      obtain ⟨⟨hnr, hty⟩, hdel⟩ := hcond
      refine ⟨by simpa using hdel, by simpa using hty, hmem, ?_⟩
      rintro ⟨n, hn, hk, hd, hau, hnotin⟩
      have htrue := (has_refs_after_tombstone db folder now a.uuid).2
        ⟨n, hn, hk, hd, hau, hnotin⟩
      rw [htrue] at hnr
      simp at hnr
  · constructor
    · intro hgc
      exact absurd hgc.2.2.1 hmem
    · intro _
      rw [gcAtoms_untouched now _ _ a.uuid hmem, hfa₁]

/-! ### Claim C5 witness -/

/-- C5 witness: the spec scenario — after dissolving FolderA, the root
level lists NoteRef X then FolderB, FolderB still lists NoteRef Y, and
the general dissolve theorem applies to the same input. -/
theorem C5_witness :
    ((TreeService.delete_folder dbDissolve 1 .Dissolve 0).map
        (fun d => ((TreeRepository.list_children d none false).map (·.node_uuid),
          (TreeRepository.list_children d (some 3) false).map (·.node_uuid))) =
      .ok ([2, 3], [4])) ∧
    (∃ nf, findNode dbDissolve 1 = some nf ∧ nf.kind = .folder ∧
      nf.is_deleted = false ∧
      findNode dbDissolveResult 1 =
        some { nf with is_deleted := true, updated_at := 0 }) := by
  constructor
  · decide
  · exact (C5_dissolve_semantics dbDissolve dbDissolveResult 1 0 (by decide)
      (by decide) (by decide)).1

/-! ### Claim C4: reference-counted GC on delete-all -/

/-- C4 (corrected): atom 50 has been retyped to a task; it is collected
from the deleted subtree and no active NoteRef outside the subtree
references it, so the claim's iff demands it be soft-deleted — yet after
`delete_folder_delete_all` it is still active, because the soft-delete
statement is guarded by `type = note AND is_deleted = 0`. -/
theorem C4_counterexample :
    50 ∈ TreeRepository.list_referenced_note_atoms_in_subtree dbRetypedAtom 1 ∧
    (¬ ∃ n, n ∈ dbRetypedAtom.nodes ∧ n.kind = .note_ref ∧
      n.is_deleted = false ∧ n.atom_uuid = some 50 ∧
      ¬ (TreeRepository.subtreeIds dbRetypedAtom 1).contains n.node_uuid = true) ∧
    (TreeRepository.delete_folder_delete_all dbRetypedAtom 1 0).map
        (fun d => findAtom d 50) =
      .ok (some (atomRow 50 .task false)) := by
  decide

/-- C4 (amended): a successful `delete_folder_delete_all` tombstones
exactly the non-deleted subtree rows, and soft-deletes a referenced atom
if and only if it is an active note-type atom collected from the deleted
subtree with no active NoteRef outside that subtree still referencing it
(`gcCondition`); every other atom row is returned unchanged. -/
theorem C4_delete_all_refcount_gc (db db' : DB) (folder : Id) (now : Int)
    (wf : WF db)
    (h : TreeRepository.delete_folder_delete_all db folder now = .ok db') :
    (∀ n ∈ db.nodes, findNode db' n.node_uuid =
      some (if ((TreeRepository.subtreeIds db folder).contains n.node_uuid &&
          !n.is_deleted) = true
        then { n with is_deleted := true, updated_at := now } else n)) ∧
    ∀ a ∈ db.atoms,
      (gcCondition db folder a →
        findAtom db' a.uuid = some { a with is_deleted := true, updated_at := now }) ∧
      (¬ gcCondition db folder a → findAtom db' a.uuid = some a) := by
  obtain ⟨hnodes, hatoms⟩ := delete_all_characterization wf h
  refine ⟨?_, hatoms⟩
  intro n hn
  rw [findNode_nodes_congr hnodes]
  have hupd : findNode (TreeRepository.soft_delete_workspace_subtree db folder now)
      n.node_uuid = (findNode db n.node_uuid).map (fun m =>
        if ((TreeRepository.subtreeIds db folder).contains m.node_uuid &&
            !m.is_deleted) then
          { m with is_deleted := true, updated_at := now } else m) :=
    findNode_updateNodes (by intro m hm; rfl) db n.node_uuid
  rw [hupd, findNode_self wf.1 hn, Option.map_some']

/-- C4 witness: the two-folder scenario — deleting FolderT leaves the
shared atom active (FolderO's reference survives), deleting FolderO as
well soft-deletes it; the amended theorem is applied at the first
delete. -/
theorem C4_witness :
    ((TreeService.delete_folder dbSharedAtom 1 .DeleteAll 0).map
        (fun d => (findActiveAtom d 50).isSome) = .ok true) ∧
    (((TreeService.delete_folder dbSharedAtom 1 .DeleteAll 0).bind
        (fun d => TreeService.delete_folder d 2 .DeleteAll 0)).map
        (fun d => (findActiveAtom d 50).isSome) = .ok false) ∧
    (¬ gcCondition dbSharedAtom 1 (atomRow 50 .note false) ∧
      findAtom dbSharedAtomAfterT 50 = some (atomRow 50 .note false)) := by
  refine ⟨by decide, by decide, by decide, ?_⟩
  exact ((C4_delete_all_refcount_gc dbSharedAtom dbSharedAtomAfterT 1 0 (by decide)
    (by decide)).2 (atomRow 50 .note false) (by decide)).2 (by decide)

/-! ### Claim C10: atom-row frame of delete-all -/

/-- C10 (confirmed): the atom soft-delete step of
`delete_folder_delete_all` only ever turns an active note atom collected
from the deleted subtree with no surviving active note_ref outside that
subtree into a tombstoned copy of itself; atoms of non-note type,
already-deleted atoms, atoms not collected from the subtree, and atoms
still referenced by an active note_ref outside the subtree are returned
exactly unchanged. -/
theorem C10_delete_all_atom_frame (db db' : DB) (folder : Id) (now : Int)
    (wf : WF db)
    (h : TreeRepository.delete_folder_delete_all db folder now = .ok db') :
    ∀ a ∈ db.atoms,
      (¬ a.type = .note → findAtom db' a.uuid = some a) ∧
      (a.is_deleted = true → findAtom db' a.uuid = some a) ∧
      (¬ a.uuid ∈ TreeRepository.list_referenced_note_atoms_in_subtree db folder →
        findAtom db' a.uuid = some a) ∧
      ((∃ n, n ∈ db.nodes ∧ n.kind = .note_ref ∧ n.is_deleted = false ∧
          n.atom_uuid = some a.uuid ∧
          ¬ (TreeRepository.subtreeIds db folder).contains n.node_uuid) →
        findAtom db' a.uuid = some a) ∧
      (findAtom db' a.uuid = some a ∨
        (a.type = .note ∧ a.is_deleted = false ∧
          a.uuid ∈ TreeRepository.list_referenced_note_atoms_in_subtree db folder ∧
          (¬ ∃ n, n ∈ db.nodes ∧ n.kind = .note_ref ∧ n.is_deleted = false ∧
              n.atom_uuid = some a.uuid ∧
              ¬ (TreeRepository.subtreeIds db folder).contains n.node_uuid) ∧
          findAtom db' a.uuid =
            some { a with is_deleted := true, updated_at := now })) := by
  obtain ⟨hnodes, hatoms⟩ := delete_all_characterization wf h
  intro a ha
  obtain ⟨hpos, hneg⟩ := hatoms a ha
  refine ⟨?_, ?_, ?_, ?_, ?_⟩
  · intro hty
    exact hneg (fun hgc => hty hgc.2.1)
  · intro hdel
    exact hneg (fun hgc => by rw [hgc.1] at hdel; cases hdel)
  · intro hmem
    exact hneg (fun hgc => hmem hgc.2.2.1)
  · intro hex
    exact hneg (fun hgc => hgc.2.2.2 hex)
  · by_cases hgc : gcCondition db folder a
    · exact Or.inr ⟨hgc.2.1, hgc.1, hgc.2.2.1, hgc.2.2.2, hpos hgc⟩
    · exact Or.inl (hneg hgc)

/-- C10 witness: the frame theorem applied twice — the retyped task atom
of `dbRetypedAtom` survives the delete-all untouched, and the shared
note atom of `dbSharedAtom` survives deleting folder 1 because the
active note_ref 4 under folder 2 still references it from outside the
deleted subtree. -/
theorem C10_witness :
    findAtom dbRetypedAfter 50 = some (atomRow 50 .task false) ∧
    findAtom dbSharedAtomAfterT 50 = some (atomRow 50 .note false) :=
  ⟨((C10_delete_all_atom_frame dbRetypedAtom dbRetypedAfter 1 0 (by decide)
      (by decide)) (atomRow 50 .task false) (by decide)).1 (by decide),
   ((C10_delete_all_atom_frame dbSharedAtom dbSharedAtomAfterT 1 0 (by decide)
      (by decide)) (atomRow 50 .note false) (by decide)).2.2.2.1
     ⟨noteRefRow 4 (some 2) 50 0, by decide, by decide, by decide, by decide,
      by decide⟩⟩

/-! ### Claim C1: no-cycle invariant and walk termination -/

theorem acyclic_of_root_rows {db : DB}
    (h : ∀ n ∈ db.nodes, n.parent_uuid = none) : Acyclic db := by
  have hpar : ∀ x, parentOf db x = none := by
    intro x
    unfold parentOf
    cases hf : findNode db x with
    | none => rfl
    | some n =>
        have hp := h n (findNode_mem hf).1
        simp [hp]
  intro n hn hdel k hk
  rw [stepN_none_of_parentOf_none (hpar _) hk]
  simp

/-- C1 (corrected): on an acyclic, well-formed state whose active folder
1 carries a dangling `parent_uuid` link to the missing node 99, the
service's ancestor walk from candidate parent 1 terminates in a fourth
way not listed by the claim: the `get_node` lookup of ancestor 99 fails
and the move aborts with `ParentNotFound 99` — neither `CycleDetected`
nor a proceeding move. -/
theorem C1_counterexample :
    Acyclic dbDanglingParent ∧ WF dbDanglingParent ∧
    TreeService.would_create_cycle dbDanglingParent 2 1 =
      some (.error (.ParentNotFound 99)) ∧
    TreeService.move_node dbDanglingParent 2 (some 1) none 0 =
      .error (.ParentNotFound 99) := by
  refine ⟨?_, by decide, by decide, by decide⟩
  intro n hn hdel k hk
  have h99 : parentOf dbDanglingParent 99 = none := by decide
  have h1 : parentOf dbDanglingParent 1 = some 99 := by decide
  have hn' : n = folderRow 1 (some 99) 0 ∨ n = folderRow 2 none 1 := by
    simpa [dbDanglingParent] using hn
  rcases hn' with rfl | rfl
  · cases k with
    | zero => omega
    | succ j =>
        cases j with
        | zero => decide
        | succ i =>
            intro habs
            rw [show (folderRow 1 (some 99) 0).node_uuid = 1 from rfl,
              stepN_succ, h1, Option.some_bind,
              stepN_none_of_parentOf_none h99 (by omega)] at habs
            cases habs
  · intro habs
    rw [stepN_none_of_parentOf_none (by decide) hk] at habs
    cases habs

/-- C1 (amended): starting from any well-formed state whose active nodes
have acyclic parent chains, every sequence of successful
`TreeService.move_node` calls preserves that acyclicity; the ancestor
walk always terminates — by reaching the moved node or revisiting a node
(`.ok true`, reported as `CycleDetected`), by reaching a node with no
parent (`.ok false`, the move proceeds), or by a failing ancestor lookup
(`ParentNotFound`, the move aborts); and a walk that reports a cycle
makes `move_node` fail with `CycleDetected`. -/
theorem C1_no_cycle_invariant :
    (∀ (db : DB) (calls : List MoveCall) (db' : DB), WF db → Acyclic db →
      applyMoves db calls = .ok db' → Acyclic db') ∧
    (∀ (db : DB) (m p : Id),
      ∃ r, TreeService.would_create_cycle db m p = some r ∧
        (r = .ok true ∨ r = .ok false ∨ ∃ q, r = .error (.ParentNotFound q))) ∧
    (∀ (db : DB) (m p : Id) (t : Option Int) (now : Int) (nm : NodeRow),
      TreeRepository.get_node db m false = some nm → ¬ p = m →
      TreeService.ensure_parent_is_folder db p = .ok () →
      TreeService.would_create_cycle db m p = some (.ok true) →
      TreeService.move_node db m (some p) t now = .error (.CycleDetected m p)) := by
  refine ⟨?_, ?_, ?_⟩
  · intro db calls db' wf hac h
    exact (applyMoves_preserves calls db db' wf hac h).1
  · intro db m p
    exact would_create_cycle_total db m p
  · intro db m p t now nm hg hpm he hw
    simp [TreeService.move_node, hg, hpm, he, hw]

/-- C1 witness: the three parts applied at concrete states — acyclicity
preserved through an empty move sequence on a root-only state, walk
termination on a concrete lookup, and a concrete ancestor-walk cycle
(moving the root folder of `dbReorder` under its own child) rejected
with `CycleDetected`. -/
theorem C1_witness :
    Acyclic dbOneFolder ∧
    (∃ r, TreeService.would_create_cycle dbOneFolder 2 1 = some r ∧
      (r = .ok true ∨ r = .ok false ∨ ∃ q, r = .error (.ParentNotFound q))) ∧
    TreeService.move_node dbReorder 1 (some 2) none 0 =
      .error (.CycleDetected 1 2) := by
  refine ⟨?_, ?_, ?_⟩
  · exact C1_no_cycle_invariant.1 dbOneFolder [] dbOneFolder (by decide)
      (acyclic_of_root_rows (by decide)) rfl
  · exact C1_no_cycle_invariant.2.1 dbOneFolder 2 1
  · exact C1_no_cycle_invariant.2.2 dbReorder 1 2 none 0 (folderRow 1 none 0)
      (by decide) (by decide) (by decide) (by decide)

/-! ### Visibility stability and insertion lemmas for the density proof -/

theorem atomActiveNote_congr {db db' : DB} (h : db'.atoms = db.atoms)
    (a : Option Id) : atomActiveNote db' a = atomActiveNote db a := by
  unfold atomActiveNote
  cases a with
  | none => rfl
  | some u => rw [h]

theorem nodeVisible_congr {db db' : DB} (h : db'.atoms = db.atoms)
    (n : NodeRow) : nodeVisible db' n = nodeVisible db n := by
  unfold nodeVisible
  rw [atomActiveNote_congr h]

theorem nodeVisible_fields {db : DB} {n n' : NodeRow}
    (hd : n'.is_deleted = n.is_deleted) (hk : n'.kind = n.kind)
    (ha : n'.atom_uuid = n.atom_uuid) :
    nodeVisible db n' = nodeVisible db n := by
  unfold nodeVisible
  rw [hd, hk, ha]

theorem insertAt_perm (xs : List Id) (i : Nat) (x : Id) :
    List.Perm (TreeRepository.insertAt xs i x) (x :: xs) := by
  unfold TreeRepository.insertAt
  refine List.Perm.trans List.perm_middle ?_
  rw [List.take_append_drop]

theorem sorted_le_intRange (n : Nat) :
    List.Sorted (fun a b => a ≤ b) (intRange n) := by
  refine List.Pairwise.map Int.ofNat ?_ (List.pairwise_lt_range n)
  intro a b hab
  exact Int.ofNat_le.mpr (Nat.le_of_lt hab)

theorem sorted_map_sort_order {l : List NodeRow} (h : List.Sorted rowle l) :
    List.Sorted (fun a b => a ≤ b) (l.map (·.sort_order)) :=
  List.Pairwise.map _ (fun _ _ hab => rowle_sort_order_le hab) h

theorem le_foldl_max (l : List Int) :
    ∀ (a x : Int), x ∈ l → x ≤ l.foldl max a := by
  induction l with
  | nil => intro a x hx; cases hx
  | cons b l ih =>
      intro a x hx
      rcases List.mem_cons.1 hx with rfl | hx
      · calc x ≤ max a x := le_max_right a x
          _ ≤ l.foldl max (max a x) := by
            clear ih hx
            induction l generalizing a x with
            | nil => exact le_refl _
            | cons c l ihc =>
                calc max a x ≤ max (max a x) c := le_max_left _ _
                  _ ≤ _ := ihc _ _
      · exact ih _ x hx

theorem foldl_max_le (l : List Int) :
    ∀ (a b : Int), a ≤ b → (∀ x ∈ l, x ≤ b) → l.foldl max a ≤ b := by
  induction l with
  | nil => intro a b ha _; exact ha
  | cons c l ih =>
      intro a b ha hl
      refine ih _ b ?_ ?_
      · exact max_le ha (hl c (List.mem_cons_self c l))
      · intro x hx
        exact hl x (List.mem_cons_of_mem c hx)

theorem foldl_max_perm {l l' : List Int} (h : List.Perm l l') :
    ∀ a : Int, l.foldl max a = l'.foldl max a := by
  induction h with
  | nil => intro a; rfl
  | cons x _ ih =>
      intro a
      exact ih (max a x)
  | swap x y l =>
      intro a
      simp only [List.foldl_cons]
      rw [max_assoc, max_comm y x, ← max_assoc]
  | trans _ _ ih₁ ih₂ =>
      intro a
      exact (ih₁ a).trans (ih₂ a)

theorem orderedInsert_append_max {x y : NodeRow} (hy : rowle y x) :
    ∀ m : List NodeRow,
      List.orderedInsert rowle y (m ++ [x]) = List.orderedInsert rowle y m ++ [x] := by
  intro m
  induction m with
  | nil => simp [List.orderedInsert, hy]
  | cons b m ih =>
      by_cases hb : rowle y b
      · simp [List.orderedInsert, hb]
      · simp [List.orderedInsert, hb, ih]

theorem sortNodes_append_max {x : NodeRow} :
    ∀ l : List NodeRow, (∀ y ∈ l, rowle y x) →
      sortNodes (l ++ [x]) = sortNodes l ++ [x] := by
  intro l
  induction l with
  | nil => intro _; rfl
  | cons b l ih =>
      intro hl
      have hb : rowle b x := hl b (List.mem_cons_self b l)
      have hrest := ih (fun y hy => hl y (List.mem_cons_of_mem b hy))
      show List.orderedInsert rowle b (sortNodes (l ++ [x])) =
        List.orderedInsert rowle b (sortNodes l) ++ [x]
      rw [hrest, orderedInsert_append_max hb]

/-! ### Destination density of move_node -/

theorem move_dense_dest {db db' : DB} {id : Id} {P : Option Id} {t : Option Int}
    {now : Int} (wf : WF db)
    (h : TreeRepository.move_node db id P t now = .ok db') :
    (TreeRepository.list_children db' P false).map (·.sort_order) =
      intRange (TreeRepository.list_children db' P false).length := by
  obtain ⟨nm, hg, hdb⟩ := move_node_ok_elim h
  obtain ⟨hfm, hvm⟩ := get_node_false_elim hg
  have hmu : nm.node_uuid = id := (findNode_mem hfm).2
  have hmdel : nm.is_deleted = false := nodeVisible_deleted_false hvm
  obtain ⟨hatoms, F, hnodesF, hskelF, hparF⟩ := move_node_shape h
  obtain ⟨wf', huuid, _⟩ := move_node_wf h wf
  set sibs := (TreeRepository.list_visible_child_ids db P).filter
      (fun s => decide (¬ s = id)) with hsibs
  set L := TreeRepository.insertAt sibs
      (TreeRepository.resolveTargetIndex t sibs.length) id with hLdef
  set db₁ := updateNodes db (fun n => decide (n.node_uuid = id) && !n.is_deleted)
      (fun n => { n with parent_uuid := P, updated_at := now }) with hdb₁
  have hid_not : ¬ id ∈ sibs := by
    intro hidm
    have hdec := (List.mem_filter.1 hidm).2
    simp at hdec
  have hsibs_nodup : sibs.Nodup := by
    rw [hsibs]
    exact (sorted_filter_ids_nodup wf.1 _).filter _
  have hLperm : List.Perm L (id :: sibs) := by
    rw [hLdef]
    exact insertAt_perm _ _ _
  have hLnodup : L.Nodup :=
    hLperm.nodup_iff.2 (List.nodup_cons.2 ⟨hid_not, hsibs_nodup⟩)
  have henumsnd : L.enum.map Prod.snd = L := List.enum_map_snd L
  have hmemL : ∀ x, x ∈ L ↔ (x = id ∨ x ∈ sibs) := by
    intro x
    rw [hLperm.mem_iff]
    simp
  have hsib_row : ∀ x ∈ sibs, ∃ n, findNode db x = some n ∧ n.is_deleted = false ∧
      n.parent_uuid = P ∧ nodeVisible db n = true ∧ n.node_uuid = x := by
    intro x hx
    have hx' : x ∈ TreeRepository.list_visible_child_ids db P :=
      (List.mem_filter.1 hx).1
    unfold TreeRepository.list_visible_child_ids at hx'
    obtain ⟨n, hn, hnu, hq⟩ := mem_sorted_filter_ids.1 hx'
    rw [Bool.and_eq_true] at hq
    exact ⟨n, hnu ▸ findNode_self wf.1 hn, nodeVisible_deleted_false hq.2,
      by simpa using hq.1, hq.2, hnu⟩
  have hrow₁ : ∀ x ∈ L, ∃ n₁, findNode db₁ x = some n₁ ∧ n₁.is_deleted = false ∧
      n₁.parent_uuid = P ∧ n₁.node_uuid = x ∧ nodeVisible db n₁ = true := by
    intro x hx
    rcases (hmemL x).1 hx with rfl | hxs
    · refine ⟨{ nm with parent_uuid := P, updated_at := now }, ?_, hmdel, rfl, hmu, ?_⟩
      · rw [hdb₁, findNode_updateNodes (by intro m hm; rfl), hfm, Option.map_some',
          if_pos (by simp [hmu, hmdel])]
      · rw [nodeVisible_fields rfl rfl rfl]
        exact hvm
    · obtain ⟨n, hn, hnd, hnp, hnv, hnu⟩ := hsib_row x hxs
      have hxi : ¬ x = id := by
        have hdec := (List.mem_filter.1 hxs).2
        simpa using hdec
      refine ⟨n, ?_, hnd, hnp, hnu, hnv⟩
      rw [hdb₁, findNode_updateNodes (by intro m hm; rfl), hn, Option.map_some',
        if_neg (by simp [hnu, hxi])]
  have hF1 : ∀ i x, (i, x) ∈ L.enum → ∃ r, findNode db' x = some r ∧
      r.sort_order = (i : Int) ∧
      (decide (r.parent_uuid = P) && nodeVisible db' r) = true ∧
      r.node_uuid = x := by
    intro i x hix
    have hx : x ∈ L := by
      rw [← henumsnd]
      exact List.mem_map_of_mem _ hix
    obtain ⟨n₁, hfn₁, hd₁, hp₁, hu₁, hv₁⟩ := hrow₁ x hx
    have hhit := applySortOrders_hit now L.enum db₁ i x n₁
      (by rw [henumsnd]; exact hLnodup) hix hfn₁ hd₁
    refine ⟨{ n₁ with sort_order := (i : Int), updated_at := now }, ?_, rfl, ?_, hu₁⟩
    · rw [hdb]
      exact hhit
    · rw [Bool.and_eq_true]
      refine ⟨by simp [hp₁], ?_⟩
      rw [nodeVisible_congr hatoms, nodeVisible_fields rfl rfl rfl]
      exact hv₁
  have hF2 : ∀ r ∈ db'.nodes,
      (decide (r.parent_uuid = P) && nodeVisible db' r) = true →
      r.node_uuid ∈ L := by
    intro r hr hpred
    rw [Bool.and_eq_true] at hpred
    obtain ⟨hrp, hrv⟩ := hpred
    rw [hnodesF] at hr
    obtain ⟨n₀, hn₀, rfl⟩ := List.mem_map.1 hr
    obtain ⟨hsu, hsk, hsa, hsd⟩ := hskelF n₀
    by_cases hxid : n₀.node_uuid = id
    · rw [hsu, hxid]
      exact (hmemL id).2 (Or.inl rfl)
    · have hpar : (F n₀).parent_uuid = n₀.parent_uuid := by
        rw [hparF n₀, if_neg (by rintro ⟨h1, _⟩; exact hxid h1)]
      have hp₀ : n₀.parent_uuid = P := by
        have := hrp
        rw [decide_eq_true_eq, hpar] at this
        exact this
      have hvis : nodeVisible db n₀ = true := by
        rw [← nodeVisible_congr hatoms]
        rw [← nodeVisible_fields hsd hsk hsa]
        exact hrv
      have hmemvis : n₀.node_uuid ∈ TreeRepository.list_visible_child_ids db P := by
        unfold TreeRepository.list_visible_child_ids
        refine mem_sorted_filter_ids.2 ⟨n₀, hn₀, rfl, ?_⟩
        rw [Bool.and_eq_true]
        exact ⟨by simp [hp₀], hvis⟩
      rw [hsu]
      refine (hmemL n₀.node_uuid).2 (Or.inr ?_)
      rw [hsibs]
      exact List.mem_filter.2 ⟨hmemvis, by simp [hxid]⟩
  have hchildren : TreeRepository.list_children db' P false =
      sortNodes (db'.nodes.filter (fun n =>
        decide (n.parent_uuid = P) && nodeVisible db' n)) := by
    unfold TreeRepository.list_children
    simp only [Bool.false_or]
  set filt := db'.nodes.filter (fun n =>
    decide (n.parent_uuid = P) && nodeVisible db' n) with hfilt
  have hfilt_nodup : (filt.map (·.node_uuid)).Nodup := by
    rw [hfilt]
    exact List.Nodup.sublist (List.Sublist.map _ (List.filter_sublist db'.nodes)) wf'.1
  have hmem_iff : ∀ x, x ∈ filt.map (·.node_uuid) ↔ x ∈ L := by
    intro x
    constructor
    · intro hx
      obtain ⟨r, hr, rfl⟩ := List.mem_map.1 hx
      have hr' := List.mem_filter.1 hr
      exact hF2 r hr'.1 hr'.2
    · intro hx
      obtain ⟨i, hgi⟩ := List.mem_iff_getElem?.1 hx
      have hienum : (i, x) ∈ L.enum := List.mk_mem_enum_iff_getElem?.2 hgi
      obtain ⟨r, hfr, hs, hpredr, hru⟩ := hF1 i x hienum
      have hrmem : r ∈ db'.nodes := (findNode_mem hfr).1
      rw [← hru]
      exact List.mem_map_of_mem _ (List.mem_filter.2 ⟨hrmem, hpredr⟩)
  have hperm_uuid : List.Perm (filt.map (·.node_uuid)) L :=
    (List.perm_ext_iff_of_nodup hfilt_nodup hLnodup).2 hmem_iff
  have hmapsort : filt.map (·.sort_order) =
      (filt.map (·.node_uuid)).map
        (fun x => ((findNode db' x).map (·.sort_order)).getD 0) := by
    rw [List.map_map]
    refine List.map_congr_left ?_
    intro r hr
    have hself := findNode_self wf'.1 (List.mem_filter.1 hr).1
    simp only [Function.comp_apply, hself]
    rfl
  have hLmap : L.map (fun x => ((findNode db' x).map (·.sort_order)).getD 0) =
      intRange L.length := by
    apply List.ext_getElem?
    intro i
    by_cases hi : i < L.length
    · have hx : L[i]? = some L[i] := List.getElem?_eq_getElem hi
      have hienum : (i, L[i]) ∈ L.enum :=
        List.mk_mem_enum_iff_getElem?.2 hx
      obtain ⟨r, hfr, hs, _, _⟩ := hF1 i L[i] hienum
      rw [List.getElem?_map, hx]
      rw [show intRange L.length = (List.range L.length).map Int.ofNat from rfl,
        List.getElem?_map, List.getElem?_range hi]
      simp [hfr, hs]
    · rw [List.getElem?_map, List.getElem?_eq_none (by omega),
        show intRange L.length = (List.range L.length).map Int.ofNat from rfl,
        List.getElem?_map, List.getElem?_eq_none (by rw [List.length_range]; omega)]
      rfl
  have hperm_sort : List.Perm (filt.map (·.sort_order)) (intRange L.length) := by
    rw [hmapsort, ← hLmap]
    exact hperm_uuid.map _
  have hfinal_perm : List.Perm
      ((TreeRepository.list_children db' P false).map (·.sort_order))
      (intRange L.length) := by
    rw [hchildren]
    exact ((sortNodes_perm filt).map _).trans hperm_sort
  have hsorted₁ : List.Sorted (fun a b => a ≤ b)
      ((TreeRepository.list_children db' P false).map (·.sort_order)) := by
    rw [hchildren]
    exact sorted_map_sort_order (sortNodes_sorted filt)
  have heq := List.eq_of_perm_of_sorted hfinal_perm hsorted₁ (sorted_le_intRange _)
  have hlen : (TreeRepository.list_children db' P false).length = L.length := by
    have hle := hfinal_perm.length_eq
    rw [List.length_map] at hle
    rw [hle]
    rw [show intRange L.length = (List.range L.length).map Int.ofNat from rfl,
      List.length_map, List.length_range]
  rw [heq, hlen]

/-! ### Density of the create operations -/

theorem intRange_succ (n : Nat) :
    intRange (n + 1) = intRange n ++ [(n : Int)] := by
  unfold intRange
  rw [List.range_succ, List.map_append]
  rfl

theorem mem_intRange_lt {n : Nat} {x : Int} (h : x ∈ intRange n) :
    x < (n : Int) := by
  unfold intRange at h
  obtain ⟨k, hk, rfl⟩ := List.mem_map.1 h
  have hkn := List.mem_range.1 hk
  show (k : Int) < (n : Int)
  omega

theorem foldl_max_intRange (n : Nat) :
    (intRange n).foldl max (-1) = (n : Int) - 1 := by
  induction n with
  | zero => rfl
  | succ m ih =>
      rw [intRange_succ, List.foldl_append]
      simp only [List.foldl_cons, List.foldl_nil]
      rw [ih, max_eq_right (by omega : (m : Int) - 1 ≤ (m : Int))]
      push_cast
      ring

theorem append_row_dense {db : DB} {P : Option Id} {row : NodeRow}
    (hp : row.parent_uuid = P)
    (hs : row.sort_order = TreeRepository.next_sort_order db P)
    (hvr : nodeVisible db row = true)
    (hvis : ∀ n ∈ db.nodes, n.parent_uuid = P → n.is_deleted = false →
      nodeVisible db n = true)
    (hdense : (TreeRepository.list_children db P false).map (·.sort_order) =
      intRange (TreeRepository.list_children db P false).length) :
    (TreeRepository.list_children { db with nodes := db.nodes ++ [row] } P
        false).map (·.sort_order) =
      intRange (TreeRepository.list_children { db with nodes := db.nodes ++ [row] }
        P false).length := by
  set db' : DB := { db with nodes := db.nodes ++ [row] } with hdb'
  have hatoms : db'.atoms = db.atoms := rfl
  have hchil : ∀ (d : DB), TreeRepository.list_children d P false =
      sortNodes (d.nodes.filter (fun n =>
        decide (n.parent_uuid = P) && nodeVisible d n)) := by
    intro d
    unfold TreeRepository.list_children
    simp only [Bool.false_or]
  set A := db.nodes.filter (fun n =>
    decide (n.parent_uuid = P) && nodeVisible db n) with hA
  have hfilter : db'.nodes.filter (fun n =>
      decide (n.parent_uuid = P) && nodeVisible db' n) = A ++ [row] := by
    have h1 : db.nodes.filter (fun n =>
        decide (n.parent_uuid = P) && nodeVisible db' n) = A := by
      rw [hA]
      exact List.filter_congr (fun n _ => by rw [nodeVisible_congr hatoms])
    have hpred : (decide (row.parent_uuid = P) && nodeVisible db' row) = true := by
      rw [Bool.and_eq_true, nodeVisible_congr hatoms]
      exact ⟨by simp [hp], hvr⟩
    have h2 : List.filter (fun n =>
        decide (n.parent_uuid = P) && nodeVisible db' n) [row] = [row] := by
      simp [hpred]
    show (db.nodes ++ [row]).filter _ = _
    rw [List.filter_append, h1, h2]
  have hdense' : (sortNodes A).map (·.sort_order) =
      intRange (sortNodes A).length := by
    have hd := hdense
    rw [hchil db] at hd
    exact hd
  have hsortsA : ∀ y ∈ A, y.sort_order < (A.length : Int) := by
    intro y hy
    have hy' : y ∈ sortNodes A := (sortNodes_perm A).mem_iff.2 hy
    have hmm : y.sort_order ∈ (sortNodes A).map (·.sort_order) :=
      List.mem_map_of_mem _ hy'
    rw [hdense', (sortNodes_perm A).length_eq] at hmm
    exact mem_intRange_lt hmm
  have hfeq : db.nodes.filter (fun n =>
      decide (n.parent_uuid = P) && !n.is_deleted) = A := by
    rw [hA]
    refine List.filter_congr ?_
    intro n hn
    by_cases hpn : n.parent_uuid = P
    · cases hdn : n.is_deleted
      · simp [hpn, hdn, hvis n hn hpn hdn]
      · simp [hpn, hdn, nodeVisible]
    · simp [hpn]
  have hnext : TreeRepository.next_sort_order db P = (A.length : Int) := by
    unfold TreeRepository.next_sort_order
    rw [hfeq]
    have hperm : List.Perm (A.map (·.sort_order))
        ((sortNodes A).map (·.sort_order)) :=
      ((sortNodes_perm A).map _).symm
    rw [foldl_max_perm hperm (-1), hdense', (sortNodes_perm A).length_eq,
      foldl_max_intRange]
    omega
  have hle : ∀ y ∈ A, rowle y row := by
    intro y hy
    have h1 : y.sort_order < row.sort_order := by
      rw [hs, hnext]
      exact hsortsA y hy
    unfold rowle rowLE
    rw [Bool.or_eq_true]
    exact Or.inl (by simpa using h1)
  have hmain : TreeRepository.list_children db' P false = sortNodes A ++ [row] := by
    rw [hchil db', hfilter, sortNodes_append_max A hle]
  rw [hmain, List.map_append, List.length_append, hdense',
    (sortNodes_perm A).length_eq]
  show intRange A.length ++ [row.sort_order] = intRange (A.length + 1)
  rw [intRange_succ, hs, hnext]

/-- C3: after a successful repository `move_node`, the visible children of
the destination parent have sort_order exactly 0..n-1 (dense, no gaps, no
duplicates); `create_folder` and `create_note_ref` assign the new row the
sort_order `next_sort_order` (maximum over the parent's non-deleted
children plus one), and this extends a dense visible listing to a dense
listing exactly when every non-deleted child of the parent is visible.
Density of the source parent after a move, density after a create under a
parent with an invisible non-deleted child, and sort_order uniqueness
among merely non-deleted siblings, all fail in general (see the
counterexample). -/
theorem C3_dense_ordering :
    (∀ (db db' : DB) (id : Id) (P : Option Id) (t : Option Int) (now : Int),
      WF db →
      TreeRepository.move_node db id P t now = .ok db' →
      (TreeRepository.list_children db' P false).map (·.sort_order) =
        intRange (TreeRepository.list_children db' P false).length) ∧
    (∀ (db d : DB) (P : Option Id) (nm : String) (newId : Id) (now : Int)
      (row : NodeRow),
      TreeRepository.create_folder db P nm newId now = .ok (d, row) →
      row.sort_order = TreeRepository.next_sort_order db P ∧
      ((∀ n ∈ db.nodes, n.parent_uuid = P → n.is_deleted = false →
          nodeVisible db n = true) →
        (TreeRepository.list_children db P false).map (·.sort_order) =
          intRange (TreeRepository.list_children db P false).length →
        (TreeRepository.list_children d P false).map (·.sort_order) =
          intRange (TreeRepository.list_children d P false).length)) ∧
    (∀ (db d : DB) (P : Option Id) (a : Id) (nm : String) (newId : Id)
      (now : Int) (row : NodeRow),
      TreeRepository.create_note_ref db P a nm newId now = .ok (d, row) →
      row.sort_order = TreeRepository.next_sort_order db P ∧
      (atomActiveNote db (some a) = true →
        (∀ n ∈ db.nodes, n.parent_uuid = P → n.is_deleted = false →
          nodeVisible db n = true) →
        (TreeRepository.list_children db P false).map (·.sort_order) =
          intRange (TreeRepository.list_children db P false).length →
        (TreeRepository.list_children d P false).map (·.sort_order) =
          intRange (TreeRepository.list_children d P false).length)) := by
  refine ⟨?_, ?_, ?_⟩
  · intro db db' id P t now wf h
    exact move_dense_dest wf h
  · intro db d P nm newId now row h
    obtain ⟨hrow, hd⟩ := repo_create_folder_fields h
    subst hrow
    subst hd
    refine ⟨rfl, ?_⟩
    intro hvis hdense
    exact append_row_dense rfl rfl rfl hvis hdense
  · intro db d P a nm newId now row h
    obtain ⟨hrow, hd⟩ := repo_create_note_ref_fields h
    subst hrow
    subst hd
    refine ⟨rfl, ?_⟩
    intro hact hvis hdense
    exact append_row_dense rfl rfl hact hvis hdense

/-- C3 counterexample: (1) moving folder 3 out of the root level of
`dbFourRoots` leaves the root's visible children with sort_order
`[0, 1, 3]`, a gap, so density after a move fails for the source parent;
(2) creating a folder under folder 1 of `dbDanglingChild`, whose only
child is a non-deleted but invisible dangling note_ref at sort 0, gives
the new row sort 1 and a visible listing `[1]`, not `[0]`; (3) moving
folder 3 within folder 1 of `dbDanglingSibling` renumbers only the
visible children, leaving the invisible non-deleted note_ref 2 and the
folder 3 both non-deleted under parent 1 with the same sort_order 0, so
per-(parent, is_deleted=0) uniqueness fails. -/
theorem C3_counterexample :
    ((TreeRepository.move_node dbFourRoots 3 (some 1) none 1).map
        (fun db' =>
          (TreeRepository.list_children db' none false).map (·.sort_order)) =
      .ok [0, 1, 3] ∧ ([0, 1, 3] : List Int) ≠ intRange 3) ∧
    ((TreeRepository.create_folder dbDanglingChild (some 1) "f" 9 1).map
        (fun p =>
          (TreeRepository.list_children p.1 (some 1) false).map (·.sort_order)) =
      .ok [1] ∧ ([1] : List Int) ≠ intRange 1) ∧
    ((TreeRepository.move_node dbDanglingSibling 3 (some 1) (some 0) 1).map
        (fun db' =>
          ((findNode db' 2).map (fun r => (r.parent_uuid, r.is_deleted, r.sort_order)),
           (findNode db' 3).map (fun r => (r.parent_uuid, r.is_deleted, r.sort_order)))) =
      .ok (some (some 1, false, 0), some (some 1, false, 0))) :=
  ⟨⟨by decide, by decide⟩, ⟨by decide, by decide⟩, by decide⟩

/-- C3 witness: the destination-density statement applied to the
in-parent reorder of `dbReorder` (moving folder 2 to index 2 under folder
1), whose result database is `dbReorderAfter`. -/
theorem C3_witness :
    (TreeRepository.list_children dbReorderAfter (some 1) false).map
        (·.sort_order) =
      intRange (TreeRepository.list_children dbReorderAfter (some 1) false).length :=
  C3_dense_ordering.1 dbReorder dbReorderAfter 2 (some 1) (some 2) 1
    (by decide) (by decide)

end LazyNote
